import Mathlib

/-!
# Verification of the mbon library

A shallow embedding, in Lean 4, of the parts of the `mbon` Rust crate that the
checked specification claims talk about:

* `src/marks.rs` — the rich-dialect mark grammar (`Size`, `Mark`);
* `src/data.rs` — lazy data shells (`Data`, `PartialItem`, `List`, `Struct`,
  `Enum`) and their three-valued equality `maybe_eq`;
* `src/engine.rs` — the lazy random-access engine (`parse_mark_sync`,
  `parse_item_n_sync`);
* `src/buffer.rs` — the block-paged LRU write-back cache (`Buffer`,
  `FileBuffer`);
* `src/concurrent.rs` — the request/response actor around an engine;
* `src/dumper.rs` / `src/parser.rs` — the legacy big-endian dialect codec.

Bytes are modelled as natural numbers (`Nat`, values below 256 on real
streams); byte streams as `List Nat`.  Machine integers are modelled as `Nat`
or `Int` with explicit wrapping where the source can overflow.  Fallible Rust
functions become `Except`-valued functions; Rust panics and non-terminating
loops become `Option`-valued functions where `none` marks the panic or the
divergence.  Error payloads (message strings) are dropped: only the error
discriminant matters to the claims.
-/

set_option maxRecDepth 4000

namespace Mbon

/-- Model of `MbonError` from `src/errors.rs` (payloads dropped). -/
inductive MbonError where
  | OutOfData
  | InvalidMark
  | InvalidSignature
  | InvalidData
  | InternalError
  | IOError
  | ConnectionReset
deriving DecidableEq, Repr

abbrev MbonResult (α : Type) := Except MbonError α

/-- A byte stream: a list of bytes (each below 256 on real streams). -/
abbrev Bytes := List Nat

/-! ## `Size` (src/marks.rs)

`Size::parse` reads a little-endian base-128 varint with continuation bits.
The model returns the parsed value together with the number of bytes consumed
from the stream; the count is returned in the error case too because the
underlying reader has consumed those bytes either way. -/

/-- Loop body of `Size::parse` (src/marks.rs lines 45-67).  Arguments: the
remaining stream, the chunk index `i`, the accumulated `value`, and the bytes
`read` so far. -/
def Size.parseLoop : Bytes → Nat → Nat → Nat → (Except MbonError Nat) × Nat
  | [], _, _, read => (.error .OutOfData, read)
  | b :: rest, i, value, read =>
    if i == 9 && 1 < b then
      -- 9 * 7 + 1 == 64: a size wider than 64 bits is an invalid mark
      (.error .InvalidMark, read + 1)
    else
      let value := value ||| ((b &&& 127) <<< (7 * i))
      if b &&& 128 == 0 then (.ok value, read + 1)
      else Size.parseLoop rest (i + 1) value (read + 1)

/-- `Size::parse` (src/marks.rs).  Returns `(value, bytes consumed)`. -/
def Size.parse (f : Bytes) : (Except MbonError Nat) × Nat :=
  Size.parseLoop f 0 0 0

/-- The loop of `Size::len` (src/marks.rs lines 95-103), unrolled `fuel`
times.  The source loop is

  while self.0 > 0 { value = value >> 7; written += 1; }

whose guard `self.0 > 0` is never changed by the body, so for `0 < s` the
loop never terminates.  `none` means the loop has not finished within `fuel`
iterations. -/
def Size.lenLoop (s : Nat) : Nat → Nat → Nat → Option Nat
  | 0, _, _ => none
  | fuel + 1, value, written =>
    if 0 < s then Size.lenLoop s fuel (value >>> 7) (written + 1)
    else some written

/-- For a positive size the `Size::len` loop never produces a result, no
matter how far it is unrolled. -/
theorem Size.lenLoop_pos_eq_none (s : Nat) (hs : 0 < s) :
    ∀ fuel value written, Size.lenLoop s fuel value written = none := by
  intro fuel
  induction fuel with
  | zero => intro value written; rfl
  | succ n ih =>
      intro value written
      simp only [Size.lenLoop, if_pos hs]
      exact ih _ _

/-- For size `0` the `Size::len` loop stops at once with its accumulator. -/
theorem Size.lenLoop_zero (fuel value written : Nat) :
    Size.lenLoop 0 (fuel + 1) value written = some written := by
  simp [Size.lenLoop]

/-- `Size::len` (src/marks.rs).  Closed form of the loop modelled by
`Size.lenLoop`: the loop returns `0` immediately when the size is `0`
(`Size.lenLoop_zero`) and never returns otherwise
(`Size.lenLoop_pos_eq_none`); `none` records the divergence. -/
def Size.len (s : Nat) : Option Nat :=
  if 0 < s then none else some 0

theorem Size.len_eq_lenLoop (s fuel value : Nat) :
    Size.len s = Size.lenLoop s (fuel + 1) value 0 := by
  by_cases hs : 0 < s
  · rw [Size.len, if_pos hs, Size.lenLoop_pos_eq_none s hs]
  · rw [Nat.not_lt, Nat.le_zero] at hs
    subst hs
    rw [Size.lenLoop_zero, Size.len]
    rfl

/-! ## `Mark` (src/marks.rs) -/

/-- Model of `Mark` from src/marks.rs.  `Arc<Mark>` children become plain
children; `Size` fields become `Nat`. -/
inductive Mark where
  | Null
  | Unsigned (b : Nat)
  | Signed (b : Nat)
  | Float (b : Nat)
  | Char (b : Nat)
  | String (l : Nat)
  | Array (v : Mark) (n : Nat)
  | List (l : Nat)
  | Struct (k : Mark) (v : Mark) (n : Nat)
  | Map (l : Nat)
  | Enum (b : Nat) (v : Mark)
  | Space
  | Padding (l : Nat)
  | Pointer (b : Nat)
  | Rc (b : Nat) (v : Mark)
  | Heap (l : Nat)
deriving DecidableEq, Repr

/-- `len_b` from src/marks.rs: `1 << (id & 0b11)`. -/
def len_b (id : Nat) : Nat := 1 <<< (id &&& 3)

/-- Recursion core of `Mark::parse` (src/marks.rs lines 182-247).  `fuel`
bounds the nesting depth; every recursive call is made on a strictly shorter
stream after consuming at least the tag byte, so `fuel = stream length` is
always enough (the fuel-exhaustion branch is unreachable then).  Returns the
bytes consumed in both the success and error cases. -/
def Mark.parseF : Nat → Bytes → (Except MbonError Mark) × Nat
  | _, [] => (.error .OutOfData, 0)
  | 0, _ :: _ => (.error .InternalError, 1)
  | fuel + 1, id :: rest =>
    match id &&& 0xfc with
    | 0xc0 => (.ok .Null, 1)
    | 0x64 => (.ok (.Unsigned (len_b id)), 1)
    | 0x68 => (.ok (.Signed (len_b id)), 1)
    | 0x6c => (.ok (.Float (len_b id)), 1)
    | 0x70 => (.ok (.Char (len_b id)), 1)
    | 0x54 =>
      match Size.parse rest with
      | (.ok size, r) => (.ok (.String size), 1 + r)
      | (.error e, r) => (.error e, 1 + r)
    | 0x40 =>
      match Mark.parseF fuel rest with
      | (.ok v, r1) =>
        match Size.parse (List.drop r1 rest) with
        | (.ok size, r2) => (.ok (.Array v size), 1 + r1 + r2)
        | (.error e, r2) => (.error e, 1 + r1 + r2)
      | (.error e, r1) => (.error e, 1 + r1)
    | 0x44 =>
      match Size.parse rest with
      | (.ok size, r) => (.ok (.List size), 1 + r)
      | (.error e, r) => (.error e, 1 + r)
    | 0x48 =>
      match Mark.parseF fuel rest with
      | (.ok k, r1) =>
        match Mark.parseF fuel (List.drop r1 rest) with
        | (.ok v, r2) =>
          match Size.parse (List.drop (r1 + r2) rest) with
          | (.ok size, r3) => (.ok (.Struct k v size), 1 + r1 + r2 + r3)
          | (.error e, r3) => (.error e, 1 + r1 + r2 + r3)
        | (.error e, r2) => (.error e, 1 + r1 + r2)
      | (.error e, r1) => (.error e, 1 + r1)
    | 0x4c =>
      match Size.parse rest with
      | (.ok size, r) => (.ok (.Map size), 1 + r)
      | (.error e, r) => (.error e, 1 + r)
    | 0x74 =>
      match Mark.parseF fuel rest with
      | (.ok v, r1) => (.ok (.Enum (len_b id) v), 1 + r1)
      | (.error e, r1) => (.error e, 1 + r1)
    | 0x80 => (.ok .Space, 1)
    | 0x04 =>
      match Size.parse rest with
      | (.ok size, r) => (.ok (.Padding size), 1 + r)
      | (.error e, r) => (.error e, 1 + r)
    | 0x28 => (.ok (.Pointer (len_b id)), 1)
    | 0x2c =>
      match Mark.parseF fuel rest with
      | (.ok v, r1) => (.ok (.Rc (len_b id) v), 1 + r1)
      | (.error e, r1) => (.error e, 1 + r1)
    | 0x10 =>
      match Size.parse rest with
      | (.ok size, r) => (.ok (.Heap size), 1 + r)
      | (.error e, r) => (.error e, 1 + r)
    | _ => (.error .InvalidMark, 1)

/-- `Mark::parse` (src/marks.rs).  Returns `(mark, bytes consumed)`; the
byte count is meaningful on errors too (the reader has advanced that far). -/
def Mark.parse (f : Bytes) : (Except MbonError Mark) × Nat :=
  Mark.parseF (List.length f) f

/-- `Mark::data_len` (src/marks.rs lines 299-318). -/
def Mark.data_len : Mark → Nat
  | .Null => 0
  | .Unsigned b => b
  | .Signed b => b
  | .Float b => b
  | .Char b => b
  | .String l => l
  | .Array v n => v.data_len * n
  | .List l => l
  | .Struct k v n => (k.data_len + v.data_len) * n
  | .Map l => l
  | .Enum b v => b + v.data_len
  | .Space => 0
  | .Padding l => l
  | .Pointer b => b
  | .Rc b v => b + v.data_len
  | .Heap l => l

/-- `Mark::mark_len` (src/marks.rs lines 321-334).  Built on `Size.len`,
which diverges for every nonzero size, hence the `Option`: `none` means the
Rust computation never terminates. -/
def Mark.mark_len : Mark → Option Nat
  | .String l => (Size.len l).map (1 + ·)
  | .Array v n => do pure (1 + (← v.mark_len) + (← Size.len n))
  | .List l => (Size.len l).map (1 + ·)
  | .Struct k v n =>
      do pure (1 + (← k.mark_len) + (← v.mark_len) + (← Size.len n))
  | .Map l => (Size.len l).map (1 + ·)
  | .Enum _ v => v.mark_len.map (1 + ·)
  | .Padding l => (Size.len l).map (1 + ·)
  | .Rc _ v => v.mark_len.map (1 + ·)
  | .Heap l => (Size.len l).map (1 + ·)
  | _ => some 1

/-- `Mark::total_len` (src/marks.rs lines 338-340):
`data_len + mark_len`, partial because `mark_len` is. -/
def Mark.total_len (m : Mark) : Option Nat :=
  m.mark_len.map (m.data_len + ·)

/-- C6: For every byte input from which `Mark::parse` successfully returns a
mark `m` together with the count `len` of bytes it consumed, `m.mark_len()`
equals `len`.  REFUTED — the code has a slip: the loop guard of `Size::len`
tests the unchanging `self.0` instead of the shifted `value`, so `Size::len`
returns `0` for size `0` (although `Size::parse` always consumes at least one
byte) and never terminates for any nonzero size.  Concretely, parsing the
string mark `[0x54, 0x00]` consumes 2 bytes but `mark_len` computes 1; and
for the string mark with size 5 the `mark_len` computation never finishes,
no matter how far the `Size::len` loop is unrolled. -/
theorem C6_mark_len_disagrees_with_parse :
    Mark.parse [0x54, 0x00] = (Except.ok (Mark.String 0), 2) ∧
    Mark.mark_len (Mark.String 0) = some 1 ∧
    Mark.mark_len (Mark.String 5) = none ∧
    (∀ fuel value written, Size.lenLoop 5 fuel value written = none) := by
  refine ⟨rfl, rfl, rfl, ?_⟩
  exact fun fuel value written =>
    Size.lenLoop_pos_eq_none 5 (by decide) fuel value written

/-! ## `Struct::fetch_nth` (src/data.rs)

`Struct` is the lazy shell for a `Dict` value: `n` key/value slots, the key
mark `key`, the value mark `val`, and the absolute position `start` of the
data region.  `fetch_nth(client, index)` addresses slot `index / 2`, decides
key-versus-value from `index & 1`, and — when the slot is unfetched — issues
`client.parse_data(mark, start + offset)` for the computed mark and offset.
The model below projects out that `(mark, location)` request (the part of the
function the claim talks about); `none` models the `Ok(None)` branch for an
out-of-range slot index. -/

/-- The `parse_data` request computed by `Struct::fetch_nth`
(src/data.rs lines 401-432) for an unfetched slot. -/
def Struct.fetch_nth_request (key val : Mark) (start n index : Nat) :
    Option (Mark × Nat) :=
  let item_i := index / 2
  let korv := index % 2 == 1
  if item_i < n then
    let mark := if korv then key else val
    let key_len := key.data_len
    let val_len := val.data_len
    let offset :=
      (key_len + val_len) * item_i + (if korv then 0 else key_len)
    some (mark, start + offset)
  else none

/-- `Struct::fetch_nth_key` (src/data.rs lines 435-441):
`fetch_nth(client, index * 2)`. -/
def Struct.fetch_nth_key_request (key val : Mark) (start n index : Nat) :
    Option (Mark × Nat) :=
  Struct.fetch_nth_request key val start n (index * 2)

/-- `Struct::fetch_nth_val` (src/data.rs lines 444-450):
`fetch_nth(client, index * 2 + 1)`. -/
def Struct.fetch_nth_val_request (key val : Mark) (start n index : Nat) :
    Option (Mark × Nat) :=
  Struct.fetch_nth_request key val start n (index * 2 + 1)

/-- In general the two accessors are swapped: for any slot in range,
`fetch_nth_key` requests the value mark at the value offset and
`fetch_nth_val` requests the key mark at the key offset. -/
theorem Struct.fetch_nth_requests_swapped (key val : Mark) (start n i : Nat)
    (h : i < n) :
    Struct.fetch_nth_key_request key val start n i
      = some (val, start + (key.data_len + val.data_len) * i + key.data_len) ∧
    Struct.fetch_nth_val_request key val start n i
      = some (key, start + (key.data_len + val.data_len) * i) := by
  have h2 : i * 2 / 2 = i := by omega
  have h3 : (i * 2 + 1) / 2 = i := by omega
  have h4 : i * 2 % 2 = 0 := by omega
  have h5 : (i * 2 + 1) % 2 = 1 := by omega
  constructor
  · simp [Struct.fetch_nth_key_request, Struct.fetch_nth_request, h2, h4, h,
      Nat.add_assoc]
  · simp [Struct.fetch_nth_val_request, Struct.fetch_nth_request, h3, h5, h]

/-- C4: for a `Struct` shell with key mark `k`, value mark `v` and `n` pairs
whose data region starts at `start`, `fetch_nth_key(client, i)` should parse
data with mark `k` at `start + i * (k.data_len + v.data_len)`, and
`fetch_nth_val(client, i)` with mark `v` at that position plus `k.data_len`.
REFUTED — `fetch_nth` maps the odd-index branch (`korv`) to the KEY slot and
mark, while `fetch_nth_key` passes the even index `2 * i`; the two accessors
are therefore swapped.  Concretely with `k = Signed 1` (`data_len` 1),
`v = Signed 2` (`data_len` 2), `n = 1`, `start = 100`, `i = 0`:
`fetch_nth_key` requests `(Signed 2, 101)` — the value mark at the value
offset — where the claim says `(Signed 1, 100)`; `fetch_nth_val` requests
`(Signed 1, 100)` where the claim says `(Signed 2, 101)`. -/
theorem C4_fetch_nth_key_val_swapped :
    Struct.fetch_nth_key_request (Mark.Signed 1) (Mark.Signed 2) 100 1 0
      = some (Mark.Signed 2, 101) ∧
    Struct.fetch_nth_val_request (Mark.Signed 1) (Mark.Signed 2) 100 1 0
      = some (Mark.Signed 1, 100) := by
  exact ⟨rfl, rfl⟩

/-! ## Lazy `Data` shells and `maybe_eq` (src/data.rs)

`Data` is the lazily materialised value: scalars and strings are complete,
composites are shells holding positions and optionally-fetched children.
Floats are modelled by their IEEE-754 bit patterns (`Nat`), and the Rust
`==` on floats is modelled by `f32_eq`/`f64_eq` below. -/

/-- Model of `Str` (src/data.rs): a parsed UTF-8 string. -/
structure Str where
  val : String
deriving DecidableEq, Repr

/-- IEEE-754 equality on 32-bit float patterns, as Rust `f32 == f32`:
`NaN` compares unequal to everything, `-0.0 == +0.0`, otherwise the
bit patterns must agree. -/
def f32_eq (a b : Nat) : Bool :=
  let isNaN := fun x : Nat =>
    ((x >>> 23) &&& 0xff == 0xff) && (x &&& 0x7fffff != 0)
  let isZero := fun x : Nat => x &&& 0x7fffffff == 0
  if isNaN a || isNaN b then false
  else if isZero a && isZero b then true
  else a == b

/-- IEEE-754 equality on 64-bit float patterns, as Rust `f64 == f64`. -/
def f64_eq (a b : Nat) : Bool :=
  let isNaN := fun x : Nat =>
    ((x >>> 52) &&& 0x7ff == 0x7ff) && (x &&& 0xfffffffffffff != 0)
  let isZero := fun x : Nat => x &&& 0x7fffffffffffffff == 0
  if isNaN a || isNaN b then false
  else if isZero a && isZero b then true
  else a == b

mutual
/-- Model of `Data` (src/data.rs lines 619-644). -/
inductive Data where
  | Null
  | U8 (v : Nat)
  | U16 (v : Nat)
  | U32 (v : Nat)
  | U64 (v : Nat)
  | I8 (v : Int)
  | I16 (v : Int)
  | I32 (v : Int)
  | I64 (v : Int)
  | F32 (bits : Nat)
  | F64 (bits : Nat)
  | C8 (v : Nat)
  | C16 (v : Nat)
  | C32 (v : Nat)
  | String (s : Str)
  | List (l : DList)
  | Array (a : DArray)
  | Struct (s : DStruct)
  | Map (m : DMap)
  | Enum8 (e : DEnum)
  | Enum16 (e : DEnum)
  | Enum32 (e : DEnum)
  | Space

/-- Model of the `List` shell (src/data.rs lines 103-108): parsed items, and
the start/end positions of the data region (`end` is `stop` here). -/
inductive DList where
  | mk (items : List PartialItem) (start stop : Nat)

/-- Model of the `Array` shell (src/data.rs lines 218-223). -/
inductive DArray where
  | mk (items : List (Option Data)) (mark : Mark) (start : Nat)

/-- Model of the `Struct` shell (src/data.rs lines 359-365). -/
inductive DStruct where
  | mk (items : List (Option Data × Option Data)) (key val : Mark)
       (start : Nat)

/-- Model of the `Map` shell (src/data.rs lines 469-474). -/
inductive DMap where
  | mk (items : List PartialItem) (start stop : Nat)

/-- Model of `Enum<T>` (src/data.rs lines 539-545); the variant width is
carried by the `Data` constructor (`Enum8`/`Enum16`/`Enum32`). -/
inductive DEnum where
  | mk (variant : Nat) (mark : Mark) (data : Option Data) (start : Nat)

/-- Model of `PartialItem` (src/data.rs lines 792-797). -/
inductive PartialItem where
  | mk (mark : Mark) (data : Option Data) (location : Nat)
end

def PartialItem.mark : PartialItem → Mark
  | .mk m _ _ => m

def PartialItem.data : PartialItem → Option Data
  | .mk _ d _ => d

def PartialItem.location : PartialItem → Nat
  | .mk _ _ l => l

def DEnum.variant : DEnum → Nat
  | .mk v _ _ _ => v

def DEnum.mark : DEnum → Mark
  | .mk _ m _ _ => m

def DEnum.data : DEnum → Option Data
  | .mk _ _ d _ => d

def DEnum.start : DEnum → Nat
  | .mk _ _ _ s => s

/-! The `maybe_eq` family.  Three-valued equality: `some true` definitely
equal, `some false` definitely different, `none` unknown.  In the model the
result is wrapped in one more `Option`: the outer `none` marks a Rust panic
(the `todo!()` arms of `Data::maybe_eq` for `Array`/`Struct`/`Map`) or an
exhausted recursion-depth budget `fuel` (choose `fuel` larger than the
nesting depth of the arguments; every theorem below quantifies over or
instantiates `fuel` explicitly). -/

mutual
/-- `Data::maybe_eq` (src/data.rs lines 751-789). -/
def Data.maybe_eq : Nat → Data → Data → Option (Option Bool)
  | 0, _, _ => none
  | _ + 1, .Null, r =>
    some (some (match r with | .Null => true | _ => false))
  | _ + 1, .U8 l, r =>
    some (some (match r with | .U8 v => l == v | _ => false))
  | _ + 1, .U16 l, r =>
    some (some (match r with | .U16 v => l == v | _ => false))
  | _ + 1, .U32 l, r =>
    some (some (match r with | .U32 v => l == v | _ => false))
  | _ + 1, .U64 l, r =>
    some (some (match r with | .U64 v => l == v | _ => false))
  | _ + 1, .I8 l, r =>
    some (some (match r with | .I8 v => l == v | _ => false))
  | _ + 1, .I16 l, r =>
    some (some (match r with | .I16 v => l == v | _ => false))
  | _ + 1, .I32 l, r =>
    some (some (match r with | .I32 v => l == v | _ => false))
  | _ + 1, .I64 l, r =>
    some (some (match r with | .I64 v => l == v | _ => false))
  | _ + 1, .F32 l, r =>
    some (some (match r with | .F32 v => f32_eq l v | _ => false))
  | _ + 1, .F64 l, r =>
    some (some (match r with | .F64 v => f64_eq l v | _ => false))
  | _ + 1, .C8 l, r =>
    some (some (match r with | .C8 v => l == v | _ => false))
  | _ + 1, .C16 l, r =>
    some (some (match r with | .C16 v => l == v | _ => false))
  | _ + 1, .C32 l, r =>
    some (some (match r with | .C32 v => l == v | _ => false))
  | _ + 1, .String l, r =>
    some (some (match r with | .String v => l == v | _ => false))
  | fuel + 1, .List l, r =>
    match r with
    | .List v => DList.maybe_eq fuel l v
    | _ => some (some false)
  | _ + 1, .Array _, _ => none
  | _ + 1, .Struct _, _ => none
  | _ + 1, .Map _, _ => none
  | fuel + 1, .Enum8 l, r =>
    match r with
    | .Enum8 v => DEnum.maybe_eqF fuel l v
    | _ => some (some false)
  | fuel + 1, .Enum16 l, r =>
    match r with
    | .Enum16 v => DEnum.maybe_eqF fuel l v
    | _ => some (some false)
  | fuel + 1, .Enum32 l, r =>
    match r with
    | .Enum32 v => DEnum.maybe_eqF fuel l v
    | _ => some (some false)
  | _ + 1, .Space, r =>
    some (some (match r with | .Space => true | _ => false))

/-- `List::maybe_eq` (src/data.rs lines 185-195): equal lengths, then
pairwise `PartialItem::maybe_eq`, where the `?` operator propagates an
unknown (`None`) immediately. -/
def DList.maybe_eq : Nat → DList → DList → Option (Option Bool)
  | 0, _, _ => none
  | fuel + 1, .mk li _ _, .mk ri _ _ =>
    if li.length != ri.length then some (some false)
    else DList.maybe_eqPairs fuel li ri

/-- The `for (lhs, rhs) in self.iter().zip(rhs.iter())` loop of
`List::maybe_eq`. -/
def DList.maybe_eqPairs :
    Nat → List PartialItem → List PartialItem → Option (Option Bool)
  | 0, _, _ => none
  | _ + 1, [], _ => some (some true)
  | _ + 1, _ :: _, [] => some (some true)
  | fuel + 1, a :: as, b :: bs =>
    match PartialItem.maybe_eq fuel a b with
    | none => none
    | some none => some none
    | some (some false) => some (some false)
    | some (some true) => DList.maybe_eqPairs fuel as bs

/-- `Enum::maybe_eq` (src/data.rs lines 599-616). -/
def DEnum.maybe_eqF : Nat → DEnum → DEnum → Option (Option Bool)
  | 0, _, _ => none
  | fuel + 1, .mk lv lm ld ls, .mk rv rm rd rs =>
    if lm != rm then some (some false)
    else if lv != rv then some (some false)
    else
      match ld, rd with
      | some a, some b => Data.maybe_eq fuel a b
      | _, _ =>
        -- Has to be the same if it has the same address
        if ls == rs then some (some true) else some none

/-- `PartialItem::maybe_eq` (src/data.rs lines 825-838). -/
def PartialItem.maybe_eq :
    Nat → PartialItem → PartialItem → Option (Option Bool)
  | 0, _, _ => none
  | fuel + 1, .mk lm ld lloc, .mk rm rd rloc =>
    if lm != rm then some (some false)
    else
      match ld, rd with
      | some a, some b => Data.maybe_eq fuel a b
      | _, _ =>
        if lloc == rloc then some (some true) else some none
end

/-- C10 counterexample: the claim says `PartialItem::maybe_eq` returns
`Some(true)` whenever the two sides have equal marks and the same file
location.  It does not: when both sides carry fetched data, the fetched-data
comparison takes precedence over the location rule.  Two `PartialItem`s with
the same mark `Signed 1` and the same location `5` but different fetched
bytes compare as `Some(false)`, not `Some(true)`. -/
theorem C10_maybe_eq_fetched_data_beats_location :
    PartialItem.maybe_eq 2
        (PartialItem.mk (Mark.Signed 1) (some (Data.I8 0)) 5)
        (PartialItem.mk (Mark.Signed 1) (some (Data.I8 1)) 5)
      = some (some false) := by
  rfl

/-- C10 as amended: `PartialItem::maybe_eq` returns `Some(true)` whenever
the two sides have equal marks and the same file location and at least one
side's data is unfetched (no fetching, never `None`); likewise
`Enum::maybe_eq` when additionally the variants agree.  When both sides
carry fetched data the fetched-data comparison takes precedence. -/
theorem C10_maybe_eq_same_location_unfetched :
    (∀ (fuel : Nat) (l r : PartialItem), l.mark = r.mark →
        l.location = r.location → (l.data = none ∨ r.data = none) →
        PartialItem.maybe_eq (fuel + 1) l r = some (some true)) ∧
    (∀ (fuel : Nat) (l r : DEnum), l.mark = r.mark →
        l.variant = r.variant → l.start = r.start →
        (l.data = none ∨ r.data = none) →
        DEnum.maybe_eqF (fuel + 1) l r = some (some true)) := by
  constructor
  · rintro fuel ⟨lm, ld, lloc⟩ ⟨rm, rd, rloc⟩ hm hloc hd
    simp only [PartialItem.mark] at hm
    simp only [PartialItem.location] at hloc
    simp only [PartialItem.data] at hd
    subst hm; subst hloc
    rcases hd with hn | hn
    · subst hn; cases rd <;> simp [PartialItem.maybe_eq]
    · subst hn; cases ld <;> simp [PartialItem.maybe_eq]
  · rintro fuel ⟨lv, lm, ld, ls⟩ ⟨rv, rm, rd, rs⟩ hm hv hs hd
    simp only [DEnum.mark] at hm
    simp only [DEnum.variant] at hv
    simp only [DEnum.start] at hs
    simp only [DEnum.data] at hd
    subst hm; subst hv; subst hs
    rcases hd with hn | hn
    · subst hn; cases rd <;> simp [DEnum.maybe_eqF]
    · subst hn; cases ld <;> simp [DEnum.maybe_eqF]

/-- Witness for `C10_maybe_eq_same_location_unfetched` at concrete inputs:
two unfetched `Null` items at location `7`, and two unfetched enums with
variant `3`, mark `Null`, start `9`. -/
theorem C10_maybe_eq_same_location_unfetched_witness :
    PartialItem.maybe_eq 1
        (PartialItem.mk Mark.Null none 7) (PartialItem.mk Mark.Null none 7)
      = some (some true) ∧
    DEnum.maybe_eqF 1
        (DEnum.mk 3 Mark.Null none 9) (DEnum.mk 3 Mark.Null none 9)
      = some (some true) :=
  ⟨C10_maybe_eq_same_location_unfetched.1 0 _ _ rfl rfl (Or.inl rfl),
   C10_maybe_eq_same_location_unfetched.2 0 _ _ rfl rfl rfl (Or.inl rfl)⟩

/-! ## Shallow `List::parse` (src/data.rs)

`List::parse` reads the data region of a `List(l)` mark lazily: starting at
the stream position `start` it repeatedly parses one mark, records a
`PartialItem` at the current `pos`, and re-reads the stream position, until
that position reaches `start + l` exactly (an overshoot is `InvalidData`).
The model is positional: the stream is the whole file plus a cursor, and
`Mark.parse (List.drop pos file)` is the mark parse at `pos`.  Note the two
properties of the source faithfully kept here: the loop body runs at least
once even for `l = 0` (it is a do-while), and after a shallow mark parse the
stream position is `pos + mark_len` — the item data is never consumed. -/

/-- The loop of `List::parse` (src/data.rs lines 139-163).  `fuel` bounds the
iterations; `stop = start + l`; each iteration consumes at least one byte, so
`fuel = l + 1` is always enough. -/
def DList.parseLoop (file : Bytes) (stop : Nat) :
    Nat → Nat → List PartialItem → Except MbonError (List PartialItem)
  | 0, _, _ => .error .InternalError
  | fuel + 1, pos, items =>
    match Mark.parse (List.drop pos file) with
    | (.error e, _) => .error e
    | (.ok m, r) =>
      let items := items ++ [PartialItem.mk m none pos]
      let pos := pos + r
      if pos == stop then .ok items
      else if stop < pos then
        -- "Mark size and actual size do not match"
        .error .InvalidData
      else DList.parseLoop file stop fuel pos items

/-- `List::parse` (src/data.rs lines 139-163), the shallow variant used by
`Data::parse` for a `List(l)` mark: `start` is the stream position at entry,
`l` the byte length stored in the mark. -/
def DList.parse (file : Bytes) (start l : Nat) : Except MbonError DList :=
  (DList.parseLoop file (start + l) (l + 1) start []).map
    (fun items => DList.mk items start (start + l))

/-- C5: parsing the data region of a `List(n)` mark yields one item per
element positioned at its own mark with `total_len`s summing to `n`, an
empty sequence for `n = 0`, and `InvalidData` on a size mismatch.
REFUTED for the shallow `List::parse` — after parsing a mark the stream
stands at the end of the mark, not at the end of the item, yet the loop
treats that position as the next item's start and compares it against
`start + n`.  The well-formed one-item region `[0x68, 0x00]` (a `Signed 1`
item: 1 mark byte plus 1 data byte, `total_len = 2 = n`) is rejected: the
loop re-parses the item's data byte `0x00` as a mark and fails with
`InvalidMark` instead of returning the single item.  And for `n = 0` the
do-while loop still parses one mark, so an empty region at the end of the
file gives `OutOfData` instead of the empty item sequence. -/
theorem C5_list_parse_shallow_misparses_items :
    DList.parse [0x68, 0x00] 0 2 = .error .InvalidMark ∧
    Mark.total_len (Mark.Signed 1) = some 2 ∧
    DList.parse [] 0 0 = .error .OutOfData := by
  refine ⟨rfl, rfl, rfl⟩

/-! ## The engine (src/engine.rs)

For the read-only engine operations the `FileBuffer` is content-transparent:
reads return the backing bytes and advance the logical cursor.  The engine
state is therefore modelled as the file contents plus that logical cursor. -/

/-- The state an `Engine` holds for read operations: backing file contents
and the file buffer's logical cursor. -/
structure Engine where
  file : Bytes
  cursor : Nat
deriving DecidableEq, Repr

/-- `Engine::parse_mark_sync` (src/engine.rs lines 164-170) at
`SeekFrom::Start loc`: seek to `loc`, parse a mark, return it with the
position `pos` it started at.  Reading through the buffer advances the
logical cursor by every byte consumed — also when the parse fails. -/
def Engine.parse_mark_sync (e : Engine) (loc : Nat) :
    (Except MbonError (Mark × Nat)) × Engine :=
  let pos := loc
  match Mark.parse (List.drop pos e.file) with
  | (.ok m, r) => (.ok (m, pos), { e with cursor := pos + r })
  | (.error err, r) => (.error err, { e with cursor := pos + r })

/-- C9 counterexample: a failed engine operation does advance the logical
cursor.  `parse_mark_sync` at location `0` of the one-byte file `[0xff]`
fails with `InvalidMark`, and the logical cursor ends at `1`, not at the
pre-operation value `0`: the tag byte was consumed through the buffer before
the parse failed. -/
theorem C9_failed_op_advances_cursor :
    (Engine.parse_mark_sync ⟨[0xff], 0⟩ 0).1 = .error .InvalidMark ∧
    ((Engine.parse_mark_sync ⟨[0xff], 0⟩ 0).2).cursor = 1 := by
  exact ⟨rfl, rfl⟩

/-! ## `Engine::parse_item_n_sync` (src/engine.rs lines 184-217)

The loop parses one mark per item, counts `read += item.mark.total_len()`,
seeks to `pos + total_len`, and keeps going while `read < bytes` (and, when
a count is given, while fewer than `count` items were parsed); after the
loop it fails with `InvalidMark` whenever `read` overshot `bytes`.  The
claim instantiates `count = None` and `parse_data = false`; the
`parse_data = true` branch (which additionally materialises each item's
shallow data) is outside the claim and not modelled.  `total_len` is
partial (`Size::len` never terminates on nonzero sizes, see above), so the
whole loop is `Option`-valued: `none` means the Rust computation never
finishes. -/

/-- The loop of `Engine::parse_item_n_sync`.  `fuel` bounds the iterations;
each pass adds `total_len ≥ 1` to `read` and the loop runs only while
`read < bytes`, so `fuel = bytes + 1` is always enough. -/
def Engine.parse_item_n_loop (file : Bytes) (count : Option Nat)
    (bytes : Nat) :
    Nat → Nat → Nat → List PartialItem →
      Option (Except MbonError (List PartialItem))
  | 0, _, _, _ => none
  | fuel + 1, pos, read, items =>
    if (match count with
        | some c => decide (items.length < c)
        | none => true) && decide (read < bytes) then
      match Mark.parse (List.drop pos file) with
      | (.error e, _) => some (.error e)
      | (.ok m, _) =>
        match m.total_len with
        | none => none
        | some len =>
          Engine.parse_item_n_loop file count bytes fuel (pos + len)
            (read + len) (items ++ [PartialItem.mk m none pos])
    else if bytes < read then some (.error .InvalidMark)
    else some (.ok items)

/-- `Engine::parse_item_n_sync` with `parse_data = false`, at
`SeekFrom::Start loc`. -/
def Engine.parse_item_n_sync (file : Bytes) (loc : Nat) (count : Option Nat)
    (bytes : Nat) : Option (Except MbonError (List PartialItem)) :=
  Engine.parse_item_n_loop file count bytes (bytes + 1) loc 0 []

/-- Specification side for the amended C3, following its words: walk the
successive items from `loc` and collect every one whose start offset lies
within the byte window `[0, L)`; return the collected items together with
the end offset of the last one. -/
def Engine.itemsStartingWithin (file : Bytes) (loc L : Nat) :
    Nat → Nat → Option (Except MbonError (List PartialItem × Nat))
  | 0, _ => none
  | fuel + 1, off =>
    if off < L then
      match Mark.parse (List.drop (loc + off) file) with
      | (.error e, _) => some (.error e)
      | (.ok m, _) =>
        match m.total_len with
        | none => none
        | some len =>
          (Engine.itemsStartingWithin file loc L fuel (off + len)).map
            (fun r =>
              r.map (fun p => (PartialItem.mk m none (loc + off) :: p.1, p.2)))
    else some (.ok ([], off))

/-- Specification side for the amended C3: the items starting within
`[loc, loc + L)` when the last of them (mark plus data) ends within the
window, and `InvalidMark` when it crosses the `loc + L` boundary. -/
def Engine.parse_item_n_spec (file : Bytes) (loc L : Nat) :
    Option (Except MbonError (List PartialItem)) :=
  match Engine.itemsStartingWithin file loc L (L + 1) 0 with
  | none => none
  | some (.error e) => some (.error e)
  | some (.ok (items, stop)) =>
    if stop ≤ L then some (.ok items) else some (.error .InvalidMark)

/-- The loop of `parse_item_n_sync` (with `count = None`) agrees with the
specification walk: starting `off` bytes into the window with the already
collected `acc`, the loop returns `acc` extended by the items starting
within the window, failing with `InvalidMark` exactly when the last of them
ends beyond the window. -/
theorem Engine.parse_item_n_loop_eq_spec (file : Bytes) (loc L : Nat) :
    ∀ (fuel off : Nat) (acc : List PartialItem),
      Engine.parse_item_n_loop file none L fuel (loc + off) off acc
        = match Engine.itemsStartingWithin file loc L fuel off with
          | none => none
          | some (.error e) => some (.error e)
          | some (.ok (items, stop)) =>
            if stop ≤ L then some (.ok (acc ++ items))
            else some (.error .InvalidMark) := by
  intro fuel
  induction fuel with
  | zero => intro off acc; rfl
  | succ n ih =>
      intro off acc
      by_cases hoff : off < L
      · simp only [Engine.parse_item_n_loop, Engine.itemsStartingWithin,
          hoff, decide_eq_true_eq, Bool.true_and, if_true, if_pos hoff,
          decide_eq_true (p := off < L) hoff]
        rcases h : Mark.parse (List.drop (loc + off) file) with ⟨res, r⟩
        cases res with
        | error e => simp
        | ok m =>
            simp only
            rcases htl : m.total_len with _ | len
            · simp
            · simp only
              have harg : loc + off + len = loc + (off + len) := by omega
              rw [harg, ih (off + len) (acc ++ [PartialItem.mk m none (loc + off)])]
              rcases Engine.itemsStartingWithin file loc L n (off + len) with
                _ | (e | ⟨items, stop⟩)
              · rfl
              · rfl
              · simp only [Option.map_some, Except.map]
                by_cases hstop : stop ≤ L <;>
                  simp [hstop, List.append_assoc]
      · simp only [Engine.parse_item_n_loop, Engine.itemsStartingWithin,
          hoff, Bool.true_and, if_neg hoff, decide_eq_false (p := off < L) hoff]
        by_cases hover : L < off
        · simp [hover, show ¬ off ≤ L by omega]
        · simp [hover, show off ≤ L by omega]

/-- C3 counterexample: the claim says `parse_item_n(loc, None, bytes = L,
parse_data = false)` returns exactly the items whose MARKS lie fully within
`[loc, loc + L)` and fails only when the final MARK crosses the boundary.
On the file `[0x68, 0x00]` (one `Signed 1` item: 1-byte mark, 1 data byte),
with `loc = 0` and `L = 1`, the mark occupies byte 0 only and so lies fully
within `[0, 1)` — the claim predicts that single item — but the code counts
whole items (`total_len`, mark plus data): `read` becomes 2 > 1 and the call
fails with `InvalidMark`. -/
theorem C3_parse_item_n_bounds_whole_items :
    Engine.parse_item_n_sync [0x68, 0x00] 0 none 1
        = some (.error .InvalidMark) ∧
    Mark.parse [0x68, 0x00] = (.ok (Mark.Signed 1), 1) := by
  exact ⟨rfl, rfl⟩

/-- C3 as amended: `parse_item_n(loc, count = None, bytes = L,
parse_data = false)` returns exactly the sequence of items (mark plus data)
starting within `[loc, loc + L)` provided each lies fully within the window,
and returns `InvalidMark` when the final such item — not just its mark —
would cross the `loc + L` boundary.  (`none` on both sides marks the
computation that never finishes because `total_len` hits the `Size::len`
divergence.) -/
theorem C3_parse_item_n_items_within (file : Bytes) (loc L : Nat) :
    Engine.parse_item_n_sync file loc none L
      = Engine.parse_item_n_spec file loc L := by
  have h := Engine.parse_item_n_loop_eq_spec file loc L (L + 1) 0 []
  unfold Engine.parse_item_n_sync Engine.parse_item_n_spec
  refine Eq.trans h ?_
  rcases Engine.itemsStartingWithin file loc L (L + 1) 0 with
    _ | (e | ⟨items, stop⟩)
  · rfl
  · rfl
  · simp only [List.nil_append]

end Mbon

/-! # The legacy dialect (src/dumper.rs, src/parser.rs)

The legacy codec is big-endian with fixed ASCII tag bytes and `u32` size
fields.  Its value/mark/type definitions live in the crate's legacy `data`
module, which is not among the provided sources — only its callers
(`dumper.rs`, `parser.rs`, with their doctests and tests) are.  Those missing
definitions are modelled from the specification (§3.1, §6.1) and pinned where
possible by the callers: `parser.rs::next_mark` fixes the shape of `Mark`,
`parser.rs::next_data_value` the shape of `Value`, and the dumper doctests
fix every prefix byte. -/

namespace Legacy

/-- Model of the legacy `Error` (src/error.rs), payloads dropped except that
the io-error kind `UnexpectedEof` is kept apart (reads past the end of the
input surface as `IO(UnexpectedEof)`).  `Msg` additionally absorbs the
fuel-exhaustion case of the recursion models below, which is unreachable for
sufficiently large fuel. -/
inductive Error where
  | Expected
  | DataError
  | EndOfFile
  | IOEof
  | IOErr
  | Msg
deriving DecidableEq, Repr

/-- Modelled from the spec: the legacy `Type` enum of the missing legacy
`data` module (§6.1 lists the kinds).  Named `Ty` because `Type` is reserved
in Lean. -/
inductive Ty where
  | Long | Int | Short | Char | Float | Double | Null
  | Bytes | Str | Object | Enum | Array | List | Dict | Map
deriving DecidableEq, Repr

/-- Modelled from the spec: `Type::prefix` of the missing legacy `data`
module.  The tag bytes come from the §6.1 table and are pinned by the dumper
doctests (`b"i\x10\x20\x30\x40"` for `write_int`, etc.). -/
def Ty.prefixByte : Ty → ℕ
  | .Long => 0x6c
  | .Int => 0x69
  | .Short => 0x68
  | .Char => 0x63
  | .Float => 0x66
  | .Double => 0x64
  | .Null => 0x6e
  | .Bytes => 0x62
  | .Str => 0x73
  | .Object => 0x6f
  | .Enum => 0x65
  | .Array => 0x61
  | .List => 0x41
  | .Dict => 0x6d
  | .Map => 0x4d

/-- Modelled from the spec: `Type::from_prefix` of the missing legacy `data`
module — the inverse of `Type::prefix`; an unknown tag byte is rejected
(§6.4 lists the error kinds; the exact kind for an unknown tag is not pinned
by the sources, `Expected` is used here). -/
def Ty.fromPrefixByte (b : ℕ) : Except Error Ty :=
  if b == 0x6c then .ok .Long
  else if b == 0x69 then .ok .Int
  else if b == 0x68 then .ok .Short
  else if b == 0x63 then .ok .Char
  else if b == 0x66 then .ok .Float
  else if b == 0x64 then .ok .Double
  else if b == 0x6e then .ok .Null
  else if b == 0x62 then .ok .Bytes
  else if b == 0x73 then .ok .Str
  else if b == 0x6f then .ok .Object
  else if b == 0x65 then .ok .Enum
  else if b == 0x61 then .ok .Array
  else if b == 0x41 then .ok .List
  else if b == 0x6d then .ok .Dict
  else if b == 0x4d then .ok .Map
  else .error .Expected

/-- Modelled from the spec: the legacy `Mark` of the missing legacy `data`
module; its shape is pinned by `parser.rs::next_mark` (src/parser.rs lines
261-289), which constructs every variant. -/
inductive Mark where
  | Long | Int | Short | Char | Float | Double | Null
  | Bytes (n : ℕ)
  | Str (n : ℕ)
  | Object (n : ℕ)
  | Enum (m : Mark)
  | Array (n : ℕ) (m : Mark)
  | List (n : ℕ)
  | Dict (n : ℕ) (k : Mark) (v : Mark)
  | Map (n : ℕ)
deriving DecidableEq, Repr

/-- Modelled from the spec: the legacy `Value` of the missing legacy `data`
module (§3.1); its shape is pinned by `parser.rs::next_data_value`
(src/parser.rs lines 238-259).  Floats are carried as their big-endian bit
patterns; `Str` carries the (UTF-8-validated) raw bytes. -/
inductive Value where
  | Long (v : ℤ)
  | Int (v : ℤ)
  | Short (v : ℤ)
  | Char (v : ℤ)
  | Float (bits : ℕ)
  | Double (bits : ℕ)
  | Bytes (b : List ℕ)
  | Str (b : List ℕ)
  | Object (b : List ℕ)
  | Enum (variant : ℕ) (v : Value)
  | Null
  | List (vs : List Value)
  | Map (pairs : List (Value × Value))
deriving Repr

/-- Modelled from the spec: `Mark::data_size` of the missing legacy `data`
module — the byte length of a mark's data region (§6.1 table). -/
def Mark.data_size : Mark → ℕ
  | .Long => 8
  | .Int => 4
  | .Short => 2
  | .Char => 1
  | .Float => 4
  | .Double => 8
  | .Null => 0
  | .Bytes n => n
  | .Str n => n
  | .Object n => n
  | .Enum m => 4 + m.data_size
  | .Array n m => n * m.data_size
  | .List n => n
  | .Dict n k v => n * (k.data_size + v.data_size)
  | .Map n => n

/-- Modelled from the spec: the header part of `Mark::size` of the missing
legacy `data` module — tag byte plus `u32` size fields plus nested marks
(§6.1 table). -/
def Mark.mark_size : Mark → ℕ
  | .Long | .Int | .Short | .Char | .Float | .Double | .Null => 1
  | .Bytes _ | .Str _ | .Object _ | .List _ | .Map _ => 5
  | .Enum m => 1 + m.mark_size
  | .Array _ m => 5 + m.mark_size
  | .Dict _ k v => 5 + k.mark_size + v.mark_size

/-- Modelled from the spec: `Mark::size` of the missing legacy `data`
module — total wire length of a marked value, mark plus data. -/
def Mark.size (m : Mark) : ℕ :=
  m.mark_size + m.data_size

/-! ### Byte-level readers (big-endian, as `byteorder::BigEndian`) -/

/-- `read_u8`: one byte, `UnexpectedEof` on an empty stream. -/
def read_u8 : List ℕ → Except Error (ℕ × List ℕ)
  | [] => .error .IOEof
  | b :: rest => .ok (b, rest)

/-- `read_exact` of `n` bytes into a buffer (`Parser::next_data_n`). -/
def read_exact (n : ℕ) (f : List ℕ) : Except Error (List ℕ × List ℕ) :=
  if List.length f < n then .error .IOEof
  else .ok (List.take n f, List.drop n f)

/-- Big-endian value of a byte list. -/
def be_nat (bs : List ℕ) : ℕ :=
  bs.foldl (fun acc b => acc * 256 + b) 0

/-- Read a `width`-byte big-endian unsigned value. -/
def read_be (width : ℕ) (f : List ℕ) : Except Error (ℕ × List ℕ) :=
  if List.length f < width then .error .IOEof
  else .ok (be_nat (List.take width f), List.drop width f)

/-- Two's-complement reading of a `width`-byte unsigned value. -/
def to_signed (width u : ℕ) : ℤ :=
  if u < 2 ^ (8 * width - 1) then (u : ℤ) else (u : ℤ) - 2 ^ (8 * width)

/-- `Parser::next_data_long`: big-endian `i64`. -/
def next_data_long (f : List ℕ) : Except Error (ℤ × List ℕ) :=
  (read_be 8 f).map (fun p => (to_signed 8 p.1, p.2))

/-- `Parser::next_data_int`: big-endian `i32`. -/
def next_data_int (f : List ℕ) : Except Error (ℤ × List ℕ) :=
  (read_be 4 f).map (fun p => (to_signed 4 p.1, p.2))

/-- `Parser::next_data_short`: big-endian `i16`. -/
def next_data_short (f : List ℕ) : Except Error (ℤ × List ℕ) :=
  (read_be 2 f).map (fun p => (to_signed 2 p.1, p.2))

/-- `Parser::next_data_char`: an `i8`. -/
def next_data_char (f : List ℕ) : Except Error (ℤ × List ℕ) :=
  (read_be 1 f).map (fun p => (to_signed 1 p.1, p.2))

/-- Rust `as usize` on an `i32` value: sign-extend, reinterpret as `u64`. -/
def int_as_usize (x : ℤ) : ℕ :=
  (x % 2 ^ 64).toNat

/-- Rust `as u32` on an `i32` value. -/
def int_as_u32 (x : ℤ) : ℕ :=
  (x % 2 ^ 32).toNat

/-- UTF-8 validity of a byte list, as `String::from_utf8` checks it:
forbidden ranges, continuation bytes, overlong encodings, surrogates and
the `U+10FFFF` ceiling. -/
def utf8Valid : List ℕ → Bool
  | [] => true
  | b :: rest =>
    if b < 0x80 then utf8Valid rest
    else if b < 0xc2 then false
    else if b ≤ 0xdf then
      match rest with
      | c1 :: r => 0x80 ≤ c1 && c1 ≤ 0xbf && utf8Valid r
      | _ => false
    else if b ≤ 0xef then
      match rest with
      | c1 :: c2 :: r =>
        (if b == 0xe0 then 0xa0 else 0x80) ≤ c1 &&
        c1 ≤ (if b == 0xed then 0x9f else 0xbf) &&
        0x80 ≤ c2 && c2 ≤ 0xbf && utf8Valid r
      | _ => false
    else if b ≤ 0xf4 then
      match rest with
      | c1 :: c2 :: c3 :: r =>
        (if b == 0xf0 then 0x90 else 0x80) ≤ c1 &&
        c1 ≤ (if b == 0xf4 then 0x8f else 0xbf) &&
        0x80 ≤ c2 && c2 ≤ 0xbf && 0x80 ≤ c3 && c3 ≤ 0xbf && utf8Valid r
      | _ => false
    else false
termination_by l => l.length

/-- `Parser::next_mark` (src/parser.rs lines 261-289): tag byte via
`Type::from_prefix`, then size fields and nested marks.  `fuel` bounds the
mark-nesting depth (each level consumes at least one byte, so any
`fuel > input length` is enough). -/
def next_markF : ℕ → List ℕ → Except Error (Mark × List ℕ)
  | 0, _ => .error .Msg
  | fuel + 1, f => do
    let (b, f) ← read_u8 f
    let t ← Ty.fromPrefixByte b
    match t with
    | .Long => .ok (.Long, f)
    | .Int => .ok (.Int, f)
    | .Short => .ok (.Short, f)
    | .Char => .ok (.Char, f)
    | .Float => .ok (.Float, f)
    | .Double => .ok (.Double, f)
    | .Null => .ok (.Null, f)
    | .Bytes => do
        let (v, f) ← next_data_int f
        .ok (.Bytes (int_as_usize v), f)
    | .Str => do
        let (v, f) ← next_data_int f
        .ok (.Str (int_as_usize v), f)
    | .Object => do
        let (v, f) ← next_data_int f
        .ok (.Object (int_as_usize v), f)
    | .Enum => do
        let (m, f) ← next_markF fuel f
        .ok (.Enum m, f)
    | .Array => do
        let (m, f) ← next_markF fuel f
        let (v, f) ← next_data_int f
        .ok (.Array (int_as_usize v) m, f)
    | .List => do
        let (v, f) ← next_data_int f
        .ok (.List (int_as_usize v), f)
    | .Dict => do
        let (k, f) ← next_markF fuel f
        let (v, f) ← next_markF fuel f
        let (n, f) ← next_data_int f
        .ok (.Dict (int_as_usize n) k v, f)
    | .Map => do
        let (v, f) ← next_data_int f
        .ok (.Map (int_as_usize v), f)

mutual
/-- `Parser::next_data_value` (src/parser.rs lines 238-259).  `fuel` bounds
the total recursion (value nesting and loop iterations); `Msg` on
exhaustion, unreachable for sufficiently large fuel. -/
def next_data_valueF : ℕ → Mark → List ℕ → Except Error (Value × List ℕ)
  | 0, _, _ => .error .Msg
  | fuel + 1, m, f =>
    match m with
    | .Long => (next_data_long f).map (fun p => (Value.Long p.1, p.2))
    | .Int => (next_data_int f).map (fun p => (Value.Int p.1, p.2))
    | .Short => (next_data_short f).map (fun p => (Value.Short p.1, p.2))
    | .Char => (next_data_char f).map (fun p => (Value.Char p.1, p.2))
    | .Float => (read_be 4 f).map (fun p => (Value.Float p.1, p.2))
    | .Double => (read_be 8 f).map (fun p => (Value.Double p.1, p.2))
    | .Bytes n => (read_exact n f).map (fun p => (Value.Bytes p.1, p.2))
    | .Str n => do
        let (b, f) ← read_exact n f
        if utf8Valid b then .ok (Value.Str b, f) else .error .DataError
    | .Object n => (read_exact n f).map (fun p => (Value.Object p.1, p.2))
    | .Enum im => do
        let (variant, f) ← next_data_int f
        let (v, f) ← next_data_valueF fuel im f
        .ok (Value.Enum (int_as_u32 variant) v, f)
    | .Null => .ok (Value.Null, f)
    | .Array n im =>
        (next_data_arrayF fuel n im f []).map (fun p => (Value.List p.1, p.2))
    | .List n =>
        (next_data_listF fuel n 0 f []).map (fun p => (Value.List p.1, p.2))
    | .Dict n k v =>
        (next_data_dictF fuel n k v f []).map (fun p => (Value.Map p.1, p.2))
    | .Map n =>
        (next_data_mapF fuel n 0 f []).map (fun p => (Value.Map p.1, p.2))

/-- `Parser::next_data_array` (src/parser.rs lines 170-179): `n` bare data
regions of the shared mark. -/
def next_data_arrayF :
    ℕ → ℕ → Mark → List ℕ → List Value → Except Error (List Value × List ℕ)
  | 0, _, _, _, _ => .error .Msg
  | _ + 1, 0, _, f, acc => .ok (acc, f)
  | fuel + 1, n + 1, m, f, acc => do
      let (v, f) ← next_data_valueF fuel m f
      next_data_arrayF fuel n m f (acc ++ [v])

/-- `Parser::next_data_list` (src/parser.rs lines 181-198): push-decode
marked values from a `size`-byte window, `DataError` on overshoot. -/
def next_data_listF :
    ℕ → ℕ → ℕ → List ℕ → List Value → Except Error (List Value × List ℕ)
  | 0, _, _, _, _ => .error .Msg
  | fuel + 1, size, read, f, acc =>
    if read < size then do
      let (m, f) ← next_markF fuel f
      let (v, f) ← next_data_valueF fuel m f
      next_data_listF fuel size (read + m.size) f (acc ++ [v])
    else if size < read then .error .DataError
    else .ok (acc, f)

/-- `Parser::next_data_dict` (src/parser.rs lines 200-215): `n` bare
key/value data pairs. -/
def next_data_dictF :
    ℕ → ℕ → Mark → Mark → List ℕ → List (Value × Value) →
      Except Error (List (Value × Value) × List ℕ)
  | 0, _, _, _, _, _ => .error .Msg
  | _ + 1, 0, _, _, f, acc => .ok (acc, f)
  | fuel + 1, n + 1, k, v, f, acc => do
      let (key, f) ← next_data_valueF fuel k f
      let (val, f) ← next_data_valueF fuel v f
      next_data_dictF fuel n k v f (acc ++ [(key, val)])

/-- `Parser::next_data_map` (src/parser.rs lines 217-236): push-decode
marked key/value pairs from a `size`-byte window. -/
def next_data_mapF :
    ℕ → ℕ → ℕ → List ℕ → List (Value × Value) →
      Except Error (List (Value × Value) × List ℕ)
  | 0, _, _, _, _ => .error .Msg
  | fuel + 1, size, read, f, acc =>
    if read < size then do
      let (km, f) ← next_markF fuel f
      let (key, f) ← next_data_valueF fuel km f
      let (vm, f) ← next_markF fuel f
      let (val, f) ← next_data_valueF fuel vm f
      next_data_mapF fuel size (read + km.size + vm.size) f
        (acc ++ [(key, val)])
    else if size < read then .error .DataError
    else .ok (acc, f)
end

/-- `Parser::next_value` (src/parser.rs lines 333-336): `next_mark` then
`next_data_value`. -/
def next_value (fuel : ℕ) (f : List ℕ) : Except Error (Value × List ℕ) := do
  let (m, f) ← next_markF fuel f
  next_data_valueF fuel m f

/-! ### The dumper side needed by the scalar round trip -/

/-- `Dumper::write_data_int` (src/dumper.rs lines 96-99): the four
big-endian two's-complement bytes of an `i32`. -/
def write_data_int (val : ℤ) : List ℕ :=
  let u := (val % 2 ^ 32).toNat
  [u / 2 ^ 24 % 256, u / 2 ^ 16 % 256, u / 2 ^ 8 % 256, u % 256]

/-- `Dumper::write_mark_int` (src/dumper.rs lines 222-224): the tag byte
`Type::Int.prefix()`. -/
def write_mark_int : List ℕ :=
  [Ty.prefixByte .Int]

/-- `Dumper::write_int` (src/dumper.rs lines 427-430): mark then data. -/
def write_int (val : ℤ) : List ℕ :=
  write_mark_int ++ write_data_int val

/-- Decoding inverts the big-endian two's-complement encoding on the `i32`
range. -/
theorem to_signed_be_nat_write_data_int (x : ℤ)
    (h1 : -(2 ^ 31) ≤ x) (h2 : x < 2 ^ 31) :
    to_signed 4 (be_nat
      [(x % 2 ^ 32).toNat / 2 ^ 24 % 256, (x % 2 ^ 32).toNat / 2 ^ 16 % 256,
       (x % 2 ^ 32).toNat / 2 ^ 8 % 256, (x % 2 ^ 32).toNat % 256]) = x := by
  unfold be_nat to_signed
  simp only [List.foldl]
  split <;> omega

/-- C1: serializing a 32-bit integer with `Dumper::write_int` and reading
the produced bytes back with `Parser::next_value` recovers `Value::Int(x)`,
consuming the whole output. -/
theorem C1_int_round_trip (x : ℤ)
    (h1 : -(2 ^ 31) ≤ x) (h2 : x < 2 ^ 31) (fuel : ℕ) :
    next_value (fuel + 1) (write_int x) = .ok (Value.Int x, []) := by
  have hmark :
      next_markF (fuel + 1) (write_int x) = .ok (.Int, write_data_int x) := by
    rfl
  rw [next_value, hmark]
  show next_data_valueF (fuel + 1) .Int (write_data_int x)
      = .ok (Value.Int x, [])
  rw [next_data_valueF]
  show (next_data_int (write_data_int x)).map (fun p => (Value.Int p.1, p.2))
      = .ok (Value.Int x, [])
  rw [next_data_int, read_be]
  rw [if_neg (by simp [write_data_int])]
  simp only [write_data_int, List.take, List.drop, Except.map]
  rw [to_signed_be_nat_write_data_int x h1 h2]

/-- Witness for `C1_int_round_trip` at `x = 0x3000_0000` (the spec's scalar
round-trip scenario) with the smallest fuel. -/
theorem C1_int_round_trip_witness :
    next_value 1 (write_int 0x30000000) = .ok (Value.Int 0x30000000, []) :=
  C1_int_round_trip 0x30000000 (by norm_num) (by norm_num) 0

end Legacy

namespace Mbon

/-! # The paged file buffer (src/buffer.rs)

`Buffer` is the block cache: a map from block ids to `(data, last access)`
pairs, the set of modified (dirty) block ids, and the logical cursor.
`FileBuffer` pairs it with the backing stream, modelled as the byte contents
of an in-memory `Cursor<Vec<u8>>`.  Model choices, all content-preserving:

* the `HashMap` becomes an association list and the purge iterates it in
  list order (the Rust iteration order is unspecified; every property proved
  below holds for the modelled order);
* the `BTreeSet` of modified ids becomes a duplicate-free list;
  `take_modified` sorts it, as the source does;
* the backing stream's physical cursor is elided — it only lets the source
  skip redundant seeks and never changes what is read or written;
* Rust panics (out-of-range slicing, `copy_from_slice` length mismatches,
  overflow of `max_blocks - sect_index` in debug builds) are `none`. -/

/-- A cached block (src/buffer.rs lines 26-29). -/
structure Block where
  data : List ℕ
  access : ℕ
deriving DecidableEq, Repr

/-- The cache state (src/buffer.rs lines 31-39). -/
structure Buffer where
  blocks : List (ℕ × Block)
  modified : List ℕ
  block_size : ℕ
  max_blocks : ℕ
  ideal_blocks : ℕ
  cursor : ℕ
  access_count : ℕ
deriving DecidableEq, Repr

/-- Association-list lookup (the `HashMap::get`). -/
def lookupBlock : List (ℕ × Block) → ℕ → Option Block
  | [], _ => none
  | p :: rest, k => if p.1 = k then some p.2 else lookupBlock rest k

/-- Replace the entry for `k` (which must be present) by `b`. -/
def updateBlock (bs : List (ℕ × Block)) (k : ℕ) (b : Block) :
    List (ℕ × Block) :=
  bs.map (fun p => if p.1 = k then (k, b) else p)

/-- `HashMap::insert`: replace an existing entry or append a fresh one. -/
def insertBlock (bs : List (ℕ × Block)) (k : ℕ) (b : Block) :
    List (ℕ × Block) :=
  if (lookupBlock bs k).isSome then updateBlock bs k b
  else bs ++ [(k, b)]

/-- `HashMap::remove`. -/
def removeBlock : List (ℕ × Block) → ℕ → List (ℕ × Block)
  | [], _ => []
  | p :: rest, k => if p.1 = k then removeBlock rest k else p :: removeBlock rest k

/-- `BTreeSet::insert` on the modified set. -/
def insertSet (l : List ℕ) (k : ℕ) : List ℕ :=
  if k ∈ l then l else l ++ [k]

/-- Insertion sort (ascending) — `take_modified`'s `sort_unstable`. -/
def insSorted (x : ℕ) : List ℕ → List ℕ
  | [] => [x]
  | y :: ys => if x ≤ y then x :: y :: ys else y :: insSorted x ys

def sortAsc (l : List ℕ) : List ℕ :=
  l.foldr insSorted []

/-- The `get_block!` macro (src/buffer.rs lines 43-62): look a block up and,
when present, stamp it with the current access counter.  Returns the block's
data and the updated buffer. -/
def Buffer.get_block (s : Buffer) (k : ℕ) : Option (List ℕ) × Buffer :=
  match lookupBlock s.blocks k with
  | some b =>
      (some b.data,
       { s with
          blocks := updateBlock s.blocks k { b with access := s.access_count }
          access_count := s.access_count + 1 })
  | none => (none, s)

/-- `Buffer::insert` (src/buffer.rs lines 269-278). -/
def Buffer.insert (s : Buffer) (k : ℕ) (data : List ℕ) : Buffer :=
  { s with
      blocks := insertBlock s.blocks k { data := data, access := s.access_count }
      access_count := s.access_count + 1 }

/-- `Buffer::is_full` (src/buffer.rs lines 265-267). -/
def Buffer.is_full (s : Buffer) : Bool :=
  s.blocks.length > s.max_blocks

/-- Descending lexicographic insertion into the eviction candidate list —
the model of `BinaryHeap<(u64, u64)>`: the head is the maximum element
(`peek`), dropping the head is `pop`. -/
def pushHeap (x : ℕ × ℕ) : List (ℕ × ℕ) → List (ℕ × ℕ)
  | [] => [x]
  | y :: ys =>
    if y.1 < x.1 ∨ (y.1 = x.1 ∧ y.2 ≤ x.2) then x :: y :: ys
    else y :: pushHeap x ys

/-- One step of the candidate-selection loop of
`Buffer::purge_least_recently_used` (src/buffer.rs lines 69-84). -/
def purgeStep (s : Buffer) (n_blocks : ℕ) (td : List (ℕ × ℕ))
    (p : ℕ × Block) : List (ℕ × ℕ) :=
  if p.1 ∈ s.modified then
    -- Don't try to clean modified blocks
    td
  else if td.length < n_blocks then pushHeap (p.2.access, p.1) td
  else
    -- (the source binds `let td = if ...` and then tests/pops it; the
    -- binding is inlined here)
    match td.head? with
    | some (access, _) =>
        if (if p.2.access ≤ access then pushHeap (p.2.access, p.1) td
            else td).length > n_blocks
        then (if p.2.access ≤ access then pushHeap (p.2.access, p.1) td
              else td).tail
        else (if p.2.access ≤ access then pushHeap (p.2.access, p.1) td
              else td)
    | none => td

/-- `Buffer::purge_least_recently_used` (src/buffer.rs lines 65-89): pick up
to `blocks.len - ideal_blocks` unmodified blocks with the oldest access
stamps and drop them from the cache. -/
def Buffer.purge_least_recently_used (s : Buffer) : Buffer :=
  let n_blocks := s.blocks.length - s.ideal_blocks
  let to_delete := s.blocks.foldl (purgeStep s n_blocks) []
  { s with blocks := to_delete.foldl (fun bs kv => removeBlock bs kv.2) s.blocks }

/-- The copy loop of `Buffer::read_buffered` (src/buffer.rs lines 100-116).
State: current block id `sect`, offset `sect_index` inside it, the bytes
`out` already delivered, and the requested total `bufLen`.  `fuel` bounds
the iterations (a run of consecutive cached blocks is at most the cache
size, so `blocks.length + 1` is always enough). -/
def Buffer.readLoop (bufLen : ℕ) :
    ℕ → Buffer → ℕ → ℕ → List ℕ → Option (List ℕ × Buffer)
  | 0, _, _, _, _ => none
  | fuel + 1, s, sect, sect_index, out =>
    match Buffer.get_block s sect with
    | (none, s) => some (out, s)
    | (some data, s) =>
      if data.length < sect_index then
        -- Rust panics slicing `&buffer[sect_index..]` past the end
        none
      else
        let to_read := min (data.length - sect_index) (bufLen - out.length)
        let out := out ++ (List.take to_read (List.drop sect_index data))
        let s := { s with cursor := s.cursor + to_read }
        if out.length == bufLen then some (out, s)
        else Buffer.readLoop bufLen fuel s (sect + 1) 0 out

/-- `Buffer::read_buffered` (src/buffer.rs lines 94-123): greedy copy from
the cache starting at the cursor, then the overflow check. -/
def Buffer.read_buffered (s : Buffer) (bufLen : ℕ) :
    Option (List ℕ × Buffer) :=
  match Buffer.readLoop bufLen (s.blocks.length + 1) s
      (s.cursor / s.block_size) (s.cursor % s.block_size) [] with
  | none => none
  | some (out, s) =>
    let s := if s.blocks.length > s.max_blocks
             then s.purge_least_recently_used else s
    some (out, s)

/-- Overwrite `data[sect_index ..]`-style: keep the first `i` bytes, splice
`src` in, keep the tail. -/
def splice (data : List ℕ) (i : ℕ) (src : List ℕ) : List ℕ :=
  List.take i data ++ src ++ List.drop (i + src.length) data

/-- The patch step of `Buffer::write`'s first loop (src/buffer.rs lines
184-196): copy into `block[sect_index ..]` as much of the remaining input as
fits, mark the block modified, advance the cursor.  Returns the state and
the new input offset. -/
def Buffer.writeStep1 (buf : List ℕ) (s : Buffer) (offset sect si : ℕ)
    (data : List ℕ) : Buffer × ℕ :=
  let to_write := min (data.length - si) (buf.length - offset)
  let data1 := splice data si (List.take to_write (List.drop offset buf))
  ({ s with
      blocks := updateBlock s.blocks sect
        { data := data1,
          access := ((lookupBlock s.blocks sect).map Block.access).getD 0 }
      modified := insertSet s.modified sect
      cursor := s.cursor + to_write },
   offset + to_write)

/-- The short-block extension step of `Buffer::write`'s first loop
(src/buffer.rs lines 199-216): when the just-patched block is still shorter
than `block_size`, extend it in place with further input bytes. -/
def Buffer.writeExtendShort (buf : List ℕ) (s : Buffer) (offset sect : ℕ) :
    Buffer × ℕ :=
  match lookupBlock s.blocks sect with
  | none => (s, offset)
  | some b =>
    if b.data.length < s.block_size then
      let to_write := min (s.block_size - b.data.length)
        (buf.length - offset)
      let data2 := b.data ++ List.take to_write (List.drop offset buf)
      ({ s with
          blocks := updateBlock s.blocks sect { b with data := data2 }
          cursor := s.cursor + to_write },
       offset + to_write)
    else (s, offset)

/-- The first loop of `Buffer::write` (src/buffer.rs lines 183-221): patch
existing blocks, extending short ones in place.  Ends with either the full
result or the loop exit state `(s, offset, sect, sect_index)` for the
new-blocks phase; `none` is the Rust panic on slicing
`&mut buffer[sect_index..]` past the end. -/
def Buffer.writeLoop (buf : List ℕ) :
    ℕ → Buffer → ℕ → ℕ → ℕ →
      Option ((ℕ × Buffer) ⊕ (Buffer × ℕ × ℕ × ℕ))
  | 0, _, _, _, _ => none
  | fuel + 1, s, offset, sect, sect_index =>
    match Buffer.get_block s sect with
    | (none, s) => some (.inr (s, offset, sect, sect_index))
    | (some data, s) =>
      if data.length < sect_index then none
      else
        let r1 := Buffer.writeStep1 buf s offset sect sect_index data
        if r1.2 == buf.length then some (.inl (r1.2, r1.1))
        else
          let r2 := Buffer.writeExtendShort buf r1.1 r1.2 sect
          if r2.2 == buf.length then some (.inl (r2.2, r2.1))
          else Buffer.writeLoop buf fuel r2.1 r2.2 (sect + 1) 0

/-- The second, new-blocks loop of `Buffer::write` (src/buffer.rs lines
223-250).  The capacity of a fresh block is computed from `max_blocks`
(where the block size is plainly meant): when the remaining bytes exceed
`max_blocks - sect_index` the `copy_from_slice` call panics on mismatched
slice lengths (`none`); otherwise a single oversized block swallows the
whole remainder. -/
def Buffer.writeNewBlocks (s : Buffer) (buf : List ℕ) (offset sect
    sect_index : ℕ) : Option (ℕ × Buffer) :=
  if offset < buf.length then
    let rem := buf.length - offset
    let max_write := s.max_blocks - sect_index
    if min max_write rem ≠ rem then none
    else
      let data := List.replicate sect_index 0 ++ List.drop offset buf
      let s := { s with
        blocks := insertBlock s.blocks sect
          { data := data, access := s.access_count }
        access_count := s.access_count + 1
        modified := insertSet s.modified sect
        cursor := s.cursor + rem }
      some (buf.length, s)
  else some (offset, s)

/-- `Buffer::write` (src/buffer.rs lines 176-253). -/
def Buffer.write (s : Buffer) (buf : List ℕ) : Option (ℕ × Buffer) :=
  match Buffer.writeLoop buf (s.blocks.length + 1) s 0
      (s.cursor / s.block_size) (s.cursor % s.block_size) with
  | none => none
  | some (.inl r) => some r
  | some (.inr (s, offset, sect, sect_index)) =>
      Buffer.writeNewBlocks s buf offset sect sect_index

/-- `Buffer::take_modified` (src/buffer.rs lines 255-259). -/
def Buffer.take_modified (s : Buffer) : List ℕ × Buffer :=
  (sortAsc s.modified, { s with modified := [] })

/-- `Buffer::iter_blocks`/`to_load` (src/buffer.rs lines 150-169): the ids
of the uncached blocks overlapping `[position, position + len)`. -/
def Buffer.to_load (s : Buffer) (position len : ℕ) : List ℕ :=
  let endp := position + len
  let block := position / s.block_size
  let end_block := (endp + s.block_size - 1) / s.block_size
  ((List.range (end_block - block)).map (fun i => block + i)).filter
    (fun sect => (lookupBlock s.blocks sect).isNone)

/-- The `FileBuffer`: cache plus backing stream contents (an in-memory
`Cursor<Vec<u8>>`). -/
structure FileBuffer where
  buffer : Buffer
  file : List ℕ
deriving DecidableEq, Repr

/-- Write `data` into `file` at `pos`, zero-filling any gap past the end —
the semantics of seek-then-write on `Cursor<Vec<u8>>`. -/
def writeAt (file : List ℕ) (pos : ℕ) (data : List ℕ) : List ℕ :=
  let f := if file.length < pos + data.length
           then file ++ List.replicate (pos + data.length - file.length) 0
           else file
  List.take pos f ++ data ++ List.drop (pos + data.length) f

/-- The fetch loop of `FileBuffer::load_blocks` (src/buffer.rs lines
493-536): read each uncached block from the backing stream; a block read
short of `block_size` (including an empty one at EOF) is still inserted,
and the loop stops at the first such block. -/
def FileBuffer.loadLoop (file : List ℕ) (block_size : ℕ) :
    List ℕ → Buffer → Buffer
  | [], s => s
  | sect :: rest, s =>
    let pos := sect * block_size
    let data := List.take block_size (List.drop pos file)
    let s := s.insert sect data
    if data.length < block_size then s
    else FileBuffer.loadLoop file block_size rest s

/-- `FileBuffer::load_blocks` (src/buffer.rs lines 493-536). -/
def FileBuffer.load_blocks (fb : FileBuffer) (position len : ℕ) :
    FileBuffer :=
  { fb with
      buffer := FileBuffer.loadLoop fb.file fb.buffer.block_size
        (fb.buffer.to_load position len) fb.buffer }

/-- The write-back loop of `FileBuffer::flush_blocks` (src/buffer.rs lines
455-468): for each modified id in ascending order, look the block up
(`get_block_mut`, which stamps the access counter; a missing block is
skipped) and write its bytes at `id * block_size`.  Also returns the trace
of `(position, bytes)` write-backs performed. -/
def FileBuffer.flushLoop (block_size : ℕ) :
    List ℕ → Buffer → List ℕ → List (ℕ × List ℕ) →
      Buffer × List ℕ × List (ℕ × List ℕ)
  | [], s, file, tr => (s, file, tr)
  | k :: rest, s, file, tr =>
    match Buffer.get_block s k with
    | (none, s) => FileBuffer.flushLoop block_size rest s file tr
    | (some data, s) =>
        FileBuffer.flushLoop block_size rest s
          (writeAt file (k * block_size) data)
          (tr ++ [(k * block_size, data)])

/-- `FileBuffer::flush_blocks` (src/buffer.rs lines 444-476): take the
modified set (sorted ascending), write every such cached block back, then
run the overflow purge if the cache is over budget.  The second component
is the trace of write-backs. -/
def FileBuffer.flush_blocks (fb : FileBuffer) :
    FileBuffer × List (ℕ × List ℕ) :=
  let p := fb.buffer.take_modified
  let r := FileBuffer.flushLoop fb.buffer.block_size p.1 p.2 fb.file []
  let s := if r.1.is_full then r.1.purge_least_recently_used else r.1
  ({ buffer := s, file := r.2.1 }, r.2.2)

/-- `<FileBuffer as Write>::write` (src/buffer.rs lines 553-563):
pre-load the touched blocks, write into the cache, and flush when the cache
ran over its limit. -/
def FileBuffer.write (fb : FileBuffer) (buf : List ℕ) :
    Option (ℕ × FileBuffer) :=
  let fb := fb.load_blocks fb.buffer.cursor buf.length
  match fb.buffer.write buf with
  | none => none
  | some (offset, b) =>
    let fb := { fb with buffer := b }
    if fb.buffer.is_full then some (offset, (fb.flush_blocks).1)
    else some (offset, fb)

/-- `<FileBuffer as Read>::read` (src/buffer.rs lines 539-547). -/
def FileBuffer.read (fb : FileBuffer) (bufLen : ℕ) :
    Option (List ℕ × FileBuffer) :=
  let fb := fb.load_blocks fb.buffer.cursor bufLen
  match fb.buffer.read_buffered bufLen with
  | none => none
  | some (out, b) => some (out, { fb with buffer := b })

/-- `<FileBuffer as Seek>::seek` at `SeekFrom::Start` (src/buffer.rs lines
574-590): store the logical cursor, no I/O. -/
def FileBuffer.seek (fb : FileBuffer) (pos : ℕ) : FileBuffer :=
  { fb with buffer := { fb.buffer with cursor := pos } }

end Mbon

namespace Mbon

/-- C2: for every operation sequence and every `block_size`/`max_blocks`
configuration, flushing after buffered writes reproduces the unbuffered
contents.  REFUTED by a slip in `Buffer::write`'s new-block path: the
capacity of a freshly created block is computed as `max_blocks - sect_index`
where the block size is plainly meant (the tests pass only because they set
`block_size = max_blocks = 13`).  With `block_size = 13` and
`max_blocks = 2`, writing 16 bytes at position 0 over an empty backing
stream panics (`copy_from_slice` with mismatched slice lengths, modelled as
`none`), while the unbuffered stream simply holds those 16 bytes; with the
test's masking configuration `max_blocks = 13`, the very same write
succeeds and flush reproduces the unbuffered contents. -/
theorem C2_new_block_capacity_uses_max_blocks :
    FileBuffer.write
        ⟨{ blocks := [], modified := [], block_size := 13, max_blocks := 2,
           ideal_blocks := 1, cursor := 0, access_count := 0 }, []⟩
        (List.range 16) = none ∧
    writeAt [] 0 (List.range 16) = List.range 16 ∧
    (FileBuffer.write
        ⟨{ blocks := [], modified := [], block_size := 13, max_blocks := 13,
           ideal_blocks := 12, cursor := 0, access_count := 0 }, []⟩
        (List.range 16)).map
          (fun r => (r.1, (FileBuffer.flush_blocks r.2).1.file))
      = some (16, List.range 16) := by
  refine ⟨rfl, rfl, rfl⟩

end Mbon

namespace Mbon

/-! ### Dirty-block invariants (claim C7) -/

theorem lookupBlock_updateBlock_ne (bs : List (ℕ × Block)) (k j : ℕ)
    (b : Block) (h : j ≠ k) :
    lookupBlock (updateBlock bs k b) j = lookupBlock bs j := by
  induction bs with
  | nil => rfl
  | cons p rest ih =>
      by_cases hpk : p.1 = k
      · rw [updateBlock, List.map_cons, if_pos hpk, lookupBlock,
          if_neg (fun he => h he.symm), lookupBlock, if_neg (by omega)]
        exact ih
      · by_cases hpj : p.1 = j
        · rw [updateBlock, List.map_cons, if_neg hpk, lookupBlock, if_pos hpj,
            lookupBlock, if_pos hpj]
        · rw [updateBlock, List.map_cons, if_neg hpk, lookupBlock, if_neg hpj,
            lookupBlock, if_neg hpj]
          exact ih

theorem lookupBlock_updateBlock_eq (bs : List (ℕ × Block)) (k : ℕ)
    (b b0 : Block) (h : lookupBlock bs k = some b0) :
    lookupBlock (updateBlock bs k b) k = some b := by
  induction bs with
  | nil => cases h
  | cons p rest ih =>
      by_cases hpk : p.1 = k
      · rw [updateBlock, List.map_cons, if_pos hpk, lookupBlock, if_pos rfl]
      · rw [lookupBlock, if_neg hpk] at h
        rw [updateBlock, List.map_cons, if_neg hpk, lookupBlock, if_neg hpk]
        exact ih h

theorem get_block_modified (s : Buffer) (k : ℕ) :
    (Buffer.get_block s k).2.modified = s.modified := by
  unfold Buffer.get_block
  rcases lookupBlock s.blocks k with _ | b <;> rfl

theorem get_block_fst (s : Buffer) (k : ℕ) :
    (Buffer.get_block s k).1 = (lookupBlock s.blocks k).map Block.data := by
  unfold Buffer.get_block
  rcases h : lookupBlock s.blocks k with _ | b <;> simp [h]

theorem get_block_data (s : Buffer) (k j : ℕ) :
    (lookupBlock (Buffer.get_block s k).2.blocks j).map Block.data
      = (lookupBlock s.blocks j).map Block.data := by
  unfold Buffer.get_block
  rcases h : lookupBlock s.blocks k with _ | b
  · rfl
  · simp only
    by_cases hj : j = k
    · subst hj
      rw [lookupBlock_updateBlock_eq s.blocks j _ b h, h]
      rfl
    · rw [lookupBlock_updateBlock_ne s.blocks k j _ hj]

theorem mem_pushHeap (x y : ℕ × ℕ) :
    ∀ td, x ∈ pushHeap y td → x = y ∨ x ∈ td := by
  intro td
  induction td with
  | nil =>
      intro h
      rw [pushHeap] at h
      exact Or.inl (List.mem_singleton.mp h)
  | cons z zs ih =>
      intro h
      rw [pushHeap] at h
      split at h
      · rcases List.mem_cons.mp h with h | h
        · exact Or.inl h
        · exact Or.inr h
      · rcases List.mem_cons.mp h with h | h
        · exact Or.inr (h ▸ List.mem_cons_self z zs)
        · rcases ih h with h | h
          · exact Or.inl h
          · exact Or.inr (List.mem_cons_of_mem z h)

theorem mem_tail {α : Type} (x : α) (l : List α) (h : x ∈ l.tail) :
    x ∈ l := by
  cases l with
  | nil => cases h
  | cons a as => exact List.mem_cons_of_mem a h

theorem purgeStep_not_modified (s : Buffer) (n : ℕ) (td : List (ℕ × ℕ))
    (p : ℕ × Block) (hinv : ∀ x ∈ td, x.2 ∉ s.modified) :
    ∀ x ∈ purgeStep s n td p, x.2 ∉ s.modified := by
  intro x hx
  unfold purgeStep at hx
  by_cases h1 : p.1 ∈ s.modified
  · rw [if_pos h1] at hx; exact hinv x hx
  · rw [if_neg h1] at hx
    by_cases h2 : td.length < n
    · rw [if_pos h2] at hx
      rcases mem_pushHeap x (p.2.access, p.1) td hx with h | h
      · rw [h]; exact h1
      · exact hinv x h
    · rw [if_neg h2] at hx
      rcases htd : td.head? with _ | ⟨access, key⟩ <;> rw [htd] at hx <;>
        simp only at hx
      · exact hinv x hx
      · by_cases h4 : p.2.access ≤ access
        · simp only [if_pos h4] at hx
          have hmem : x ∈ pushHeap (p.2.access, p.1) td := by
            split at hx
            · exact mem_tail _ _ hx
            · exact hx
          rcases mem_pushHeap x (p.2.access, p.1) td hmem with h | h
          · rw [h]; exact h1
          · exact hinv x h
        · simp only [if_neg h4] at hx
          have hmem : x ∈ td := by
            split at hx
            · exact mem_tail _ _ hx
            · exact hx
          exact hinv x hmem

theorem purgeFold_not_modified (s : Buffer) (n : ℕ) :
    ∀ (l : List (ℕ × Block)) (td : List (ℕ × ℕ)),
      (∀ x ∈ td, x.2 ∉ s.modified) →
      ∀ x ∈ l.foldl (purgeStep s n) td, x.2 ∉ s.modified := by
  intro l
  induction l with
  | nil => intro td h; exact h
  | cons p rest ih =>
      intro td h
      exact ih (purgeStep s n td p) (purgeStep_not_modified s n td p h)

theorem lookupBlock_removeBlock (bs : List (ℕ × Block)) (k j : ℕ)
    (h : j ≠ k) : lookupBlock (removeBlock bs k) j = lookupBlock bs j := by
  induction bs with
  | nil => rfl
  | cons p rest ih =>
      by_cases hpk : p.1 = k
      · rw [removeBlock, if_pos hpk, ih, lookupBlock,
          if_neg (by omega : ¬ p.1 = j)]
      · by_cases hpj : p.1 = j
        · rw [removeBlock, if_neg hpk, lookupBlock, if_pos hpj, lookupBlock,
            if_pos hpj]
        · rw [removeBlock, if_neg hpk, lookupBlock, if_neg hpj, lookupBlock,
            if_neg hpj]
          exact ih

theorem lookupBlock_removeFold (k : ℕ) :
    ∀ (tds : List (ℕ × ℕ)) (bs : List (ℕ × Block)),
      (∀ x ∈ tds, x.2 ≠ k) →
      lookupBlock (tds.foldl (fun bs kv => removeBlock bs kv.2) bs) k
        = lookupBlock bs k := by
  intro tds
  induction tds with
  | nil => intro bs _; rfl
  | cons kv rest ih =>
      intro bs h
      rw [List.foldl_cons, ih _ (fun x hx => h x (List.mem_cons_of_mem kv hx)),
        lookupBlock_removeBlock bs kv.2 k
          (fun he => h kv (List.mem_cons_self kv rest) he.symm)]

/-- The LRU purge touches neither the modified set nor any modified block:
a dirty block is never evicted. -/
theorem purge_preserves_modified (s : Buffer) (k : ℕ) (h : k ∈ s.modified) :
    lookupBlock (s.purge_least_recently_used).blocks k
      = lookupBlock s.blocks k ∧
    k ∈ (s.purge_least_recently_used).modified := by
  constructor
  · unfold Buffer.purge_least_recently_used
    exact lookupBlock_removeFold k _ s.blocks
      (fun x hx he =>
        purgeFold_not_modified s _ s.blocks [] (by simp) x hx (he ▸ h))
  · exact h

end Mbon

namespace Mbon

theorem purge_modified (s : Buffer) :
    (s.purge_least_recently_used).modified = s.modified := rfl

theorem readLoop_modified (bufLen : ℕ) :
    ∀ (fuel : ℕ) (s : Buffer) (sect si : ℕ) (out : List ℕ)
      (r : List ℕ × Buffer),
      Buffer.readLoop bufLen fuel s sect si out = some r →
      r.2.modified = s.modified := by
  intro fuel
  induction fuel with
  | zero => intro s sect si out r h; cases h
  | succ n ih =>
      intro s sect si out r h
      rw [Buffer.readLoop] at h
      rcases hg : Buffer.get_block s sect with ⟨blk, s'⟩
      rw [hg] at h
      have hms : s'.modified = s.modified := by
        have h0 := get_block_modified s sect
        rw [hg] at h0
        exact h0
      cases blk with
      | none =>
          simp only at h
          cases h
          exact hms
      | some data =>
          simp only at h
          split at h
          · cases h
          · split at h
            · cases h
              exact hms
            · rw [ih _ _ _ _ _ h]
              exact hms

theorem read_buffered_modified (s : Buffer) (n : ℕ) (r : List ℕ × Buffer)
    (h : Buffer.read_buffered s n = some r) : r.2.modified = s.modified := by
  unfold Buffer.read_buffered at h
  rcases hl : Buffer.readLoop n (s.blocks.length + 1) s
      (s.cursor / s.block_size) (s.cursor % s.block_size) [] with _ | ⟨out, s'⟩
  · rw [hl] at h; cases h
  · rw [hl] at h
    simp only at h
    have hm := readLoop_modified n _ s _ _ _ _ hl
    split at h <;> cases h
    · rw [purge_modified]; exact hm
    · exact hm

theorem mem_insertSet (l : List ℕ) (k j : ℕ) (h : j ∈ l) :
    j ∈ insertSet l k := by
  unfold insertSet
  split
  · exact h
  · exact List.mem_append_left _ h

theorem writeNewBlocks_modified (s : Buffer) (buf : List ℕ)
    (offset sect si : ℕ) (r : ℕ × Buffer)
    (h : Buffer.writeNewBlocks s buf offset sect si = some r) :
    ∀ k ∈ s.modified, k ∈ r.2.modified := by
  intro k hk
  unfold Buffer.writeNewBlocks at h
  split at h
  · simp only at h
    split at h
    · cases h
    · cases h
      exact mem_insertSet _ _ _ hk
  · cases h
    exact hk

theorem writeLoop_modified (buf : List ℕ) :
    ∀ (fuel : ℕ) (s : Buffer) (offset sect si : ℕ)
      (r : (ℕ × Buffer) ⊕ (Buffer × ℕ × ℕ × ℕ)),
      Buffer.writeLoop buf fuel s offset sect si = some r →
      ∀ k ∈ s.modified,
        (match r with
         | .inl p => k ∈ p.2.modified
         | .inr q => k ∈ q.1.modified) := by
  intro fuel
  induction fuel with
  | zero => intro s offset sect si r h; cases h
  | succ n ih =>
      intro s offset sect si r h k hk
      rw [Buffer.writeLoop] at h
      rcases hg : Buffer.get_block s sect with ⟨blk, s'⟩
      rw [hg] at h
      have hms : s'.modified = s.modified := by
        have h0 := get_block_modified s sect
        rw [hg] at h0
        exact h0
      cases blk with
      | none =>
          simp only at h
          cases h
          simp only
          rw [hms]; exact hk
      | some data =>
          simp only at h
          split at h
          · cases h
          · have hk1 : k ∈ (Buffer.writeStep1 buf s' offset sect si data).1.modified := by
              rw [Buffer.writeStep1]
              exact mem_insertSet _ _ _ (hms ▸ hk)
            have hk2 : ∀ (t : Buffer) (o : ℕ), k ∈ t.modified →
                k ∈ (Buffer.writeExtendShort buf t o sect).1.modified := by
              intro t o hkt
              rw [Buffer.writeExtendShort]
              rcases lookupBlock t.blocks sect with _ | b
              · exact hkt
              · simp only
                split
                · exact hkt
                · exact hkt
            split at h
            · cases h
              exact hk1
            · split at h
              · cases h
                exact hk2 _ _ hk1
              · exact ih _ _ _ _ _ h k (hk2 _ _ hk1)

theorem write_modified (s : Buffer) (buf : List ℕ) (r : ℕ × Buffer)
    (h : Buffer.write s buf = some r) :
    ∀ k ∈ s.modified, k ∈ r.2.modified := by
  intro k hk
  unfold Buffer.write at h
  rcases hl : Buffer.writeLoop buf (s.blocks.length + 1) s 0
      (s.cursor / s.block_size) (s.cursor % s.block_size) with _ | (p | q)
  · rw [hl] at h; cases h
  · rw [hl] at h
    simp only at h
    cases h
    exact writeLoop_modified buf _ s _ _ _ _ hl k hk
  · rw [hl] at h
    simp only at h
    have hq := writeLoop_modified buf _ s _ _ _ _ hl k hk
    simp only at hq
    exact writeNewBlocks_modified _ buf _ _ _ r h k hq

theorem loadLoop_modified (file : List ℕ) (bs : ℕ) :
    ∀ (l : List ℕ) (s : Buffer),
      (FileBuffer.loadLoop file bs l s).modified = s.modified := by
  intro l
  induction l with
  | nil => intro s; rfl
  | cons sect rest ih =>
      intro s
      rw [FileBuffer.loadLoop]
      split
      · rfl
      · rw [ih]
        rfl

theorem load_blocks_modified (fb : FileBuffer) (p l : ℕ) :
    (fb.load_blocks p l).buffer.modified = fb.buffer.modified := by
  unfold FileBuffer.load_blocks
  exact loadLoop_modified _ _ _ _

theorem flushLoop_modified (bs : ℕ) :
    ∀ (ks : List ℕ) (s : Buffer) (file : List ℕ) (tr : List (ℕ × List ℕ)),
      (FileBuffer.flushLoop bs ks s file tr).1.modified = s.modified := by
  intro ks
  induction ks with
  | nil => intro s file tr; rfl
  | cons k rest ih =>
      intro s file tr
      rw [FileBuffer.flushLoop]
      rcases hg : Buffer.get_block s k with ⟨blk, s'⟩
      have hms : s'.modified = s.modified := by
        have h0 := get_block_modified s k
        rw [hg] at h0
        exact h0
      cases blk with
      | none => rw [ih]; exact hms
      | some data => rw [ih]; exact hms

theorem flushLoop_trace_mono (bs : ℕ) :
    ∀ (ks : List ℕ) (s : Buffer) (file : List ℕ) (tr : List (ℕ × List ℕ))
      (x : ℕ × List ℕ), x ∈ tr →
      x ∈ (FileBuffer.flushLoop bs ks s file tr).2.2 := by
  intro ks
  induction ks with
  | nil => intro s file tr x hx; exact hx
  | cons k rest ih =>
      intro s file tr x hx
      rw [FileBuffer.flushLoop]
      rcases hg : Buffer.get_block s k with ⟨blk, s'⟩
      cases blk with
      | none => exact ih _ _ _ x hx
      | some data => exact ih _ _ _ x (List.mem_append_left _ hx)

theorem flushLoop_writes (bs : ℕ) :
    ∀ (ks : List ℕ) (s : Buffer) (file : List ℕ) (tr : List (ℕ × List ℕ))
      (k : ℕ) (d : List ℕ), k ∈ ks →
      (lookupBlock s.blocks k).map Block.data = some d →
      (k * bs, d) ∈ (FileBuffer.flushLoop bs ks s file tr).2.2 := by
  intro ks
  induction ks with
  | nil => intro s file tr k d hk _; cases hk
  | cons k0 rest ih =>
      intro s file tr k d hk hd
      rw [FileBuffer.flushLoop]
      rcases hg : Buffer.get_block s k0 with ⟨blk, s'⟩
      have hdata : ∀ j, (lookupBlock s'.blocks j).map Block.data
          = (lookupBlock s.blocks j).map Block.data := by
        intro j
        have h0 := get_block_data s k0 j
        rw [hg] at h0
        exact h0
      rcases List.mem_cons.mp hk with he | hrest
      · subst he
        have hfst : blk = some d := by
          have h0 := get_block_fst s k
          rw [hg] at h0
          simp only at h0
          rw [h0, hd]
        subst hfst
        exact flushLoop_trace_mono bs rest s' _ _ (k * bs, d)
          (List.mem_append_right _ (List.mem_singleton.mpr rfl))
      · cases blk with
        | none => exact ih s' _ _ k d hrest (by rw [hdata]; exact hd)
        | some data => exact ih s' _ _ k d hrest (by rw [hdata]; exact hd)

theorem mem_insSorted (x y : ℕ) :
    ∀ l, x ∈ insSorted y l ↔ x = y ∨ x ∈ l := by
  intro l
  induction l with
  | nil => simp [insSorted]
  | cons z zs ih =>
      rw [insSorted]
      split
      · simp [List.mem_cons]
      · simp only [List.mem_cons, ih]
        tauto

theorem mem_sortAsc (k : ℕ) : ∀ l, k ∈ l → k ∈ sortAsc l := by
  intro l
  induction l with
  | nil => intro h; cases h
  | cons x xs ih =>
      intro h
      rw [sortAsc, List.foldr_cons]
      rcases List.mem_cons.mp h with he | hm
      · exact (mem_insSorted k x _).mpr (Or.inl he)
      · exact (mem_insSorted k x _).mpr (Or.inr (ih hm))

theorem flush_blocks_clears_and_writes (fb : FileBuffer) :
    ((fb.flush_blocks).1).buffer.modified = [] ∧
    ∀ k ∈ fb.buffer.modified, ∀ b,
      lookupBlock fb.buffer.blocks k = some b →
      (k * fb.buffer.block_size, b.data) ∈ (fb.flush_blocks).2 := by
  constructor
  · show (if _ then _ else _ : Buffer).modified = []
    split
    · rw [purge_modified, flushLoop_modified]
      rfl
    · rw [flushLoop_modified]
      rfl
  · intro k hk b hb
    refine flushLoop_writes fb.buffer.block_size
      (sortAsc fb.buffer.modified) _ fb.file [] k b.data
      (mem_sortAsc k _ hk) ?_
    have hb' : lookupBlock (fb.buffer.take_modified).2.blocks k = some b := hb
    rw [hb']
    rfl

end Mbon

namespace Mbon

/-- C7: in every reachable buffer state, a block listed in the modified set
is never removed from the cache by the LRU overflow purge, and a block
leaves the modified set only through flush, which writes its contents back
to the backing stream first.  Concretely: (1) the purge removes no modified
block and keeps the modified set intact; (2) `read_buffered` (which runs the
overflow purge) leaves the modified set unchanged; (3) `Buffer::write` never
removes a block from the modified set; (4) `load_blocks` and (5) `seek`
leave the modified set unchanged; (6) `flush_blocks` empties the modified
set and its write-back trace contains, for every modified cached block, the
write of that block's bytes at offset `id * block_size`. -/
theorem C7_dirty_blocks_never_evicted :
    (∀ (s : Buffer) (k : ℕ), k ∈ s.modified →
        lookupBlock (s.purge_least_recently_used).blocks k
            = lookupBlock s.blocks k ∧
          k ∈ (s.purge_least_recently_used).modified) ∧
    (∀ (s : Buffer) (n : ℕ) (r : List ℕ × Buffer),
        s.read_buffered n = some r → r.2.modified = s.modified) ∧
    (∀ (s : Buffer) (buf : List ℕ) (r : ℕ × Buffer),
        s.write buf = some r → ∀ k ∈ s.modified, k ∈ r.2.modified) ∧
    (∀ (fb : FileBuffer) (p l : ℕ),
        (fb.load_blocks p l).buffer.modified = fb.buffer.modified) ∧
    (∀ (fb : FileBuffer) (p : ℕ),
        (fb.seek p).buffer.modified = fb.buffer.modified) ∧
    (∀ fb : FileBuffer,
        ((fb.flush_blocks).1).buffer.modified = [] ∧
        ∀ k ∈ fb.buffer.modified, ∀ b,
          lookupBlock fb.buffer.blocks k = some b →
          (k * fb.buffer.block_size, b.data) ∈ (fb.flush_blocks).2) :=
  ⟨purge_preserves_modified,
   read_buffered_modified,
   write_modified,
   load_blocks_modified,
   fun _ _ => rfl,
   flush_blocks_clears_and_writes⟩

/-- A one-block dirty cache used to witness `C7_dirty_blocks_never_evicted`:
block 0 holds `[7]`, is modified, `block_size = max_blocks = 1`. -/
def c7s : Buffer :=
  { blocks := [(0, { data := [7], access := 0 })], modified := [0],
    block_size := 1, max_blocks := 1, ideal_blocks := 0, cursor := 0,
    access_count := 1 }

/-- The concrete result of `Buffer.read_buffered c7s 0`. -/
def c7readR : List ℕ × Buffer :=
  ([], { blocks := [(0, { data := [7], access := 1 })], modified := [0],
         block_size := 1, max_blocks := 1, ideal_blocks := 0, cursor := 0,
         access_count := 2 })

/-- The concrete result of `Buffer.write c7s [9]`. -/
def c7writeR : ℕ × Buffer :=
  (1, { blocks := [(0, { data := [9], access := 1 })], modified := [0],
        block_size := 1, max_blocks := 1, ideal_blocks := 0, cursor := 1,
        access_count := 2 })

/-- Witness for `C7_dirty_blocks_never_evicted` at the concrete one-block
dirty cache `c7s` over the backing stream `[5]`. -/
theorem C7_dirty_blocks_never_evicted_witness :
    (lookupBlock (Buffer.purge_least_recently_used c7s).blocks 0
        = lookupBlock c7s.blocks 0 ∧
      0 ∈ (Buffer.purge_least_recently_used c7s).modified) ∧
    c7readR.2.modified = c7s.modified ∧
    (∀ k ∈ c7s.modified, k ∈ c7writeR.2.modified) ∧
    ((FileBuffer.mk c7s [5]).load_blocks 0 0).buffer.modified
      = c7s.modified ∧
    ((FileBuffer.mk c7s [5]).seek 3).buffer.modified = c7s.modified ∧
    (((FileBuffer.mk c7s [5]).flush_blocks).1).buffer.modified = [] ∧
    (0, [7]) ∈ ((FileBuffer.mk c7s [5]).flush_blocks).2 := by
  obtain ⟨h1, h2, h3, h4, h5, h6⟩ := C7_dirty_blocks_never_evicted
  refine ⟨h1 c7s 0 (by decide), h2 c7s 0 c7readR rfl,
    fun k hk => h3 c7s [9] c7writeR rfl k hk,
    h4 (FileBuffer.mk c7s [5]) 0 0, h5 (FileBuffer.mk c7s [5]) 3,
    (h6 (FileBuffer.mk c7s [5])).1, ?_⟩
  exact (h6 (FileBuffer.mk c7s [5])).2 0 (by decide)
    { data := [7], access := 0 } rfl

end Mbon

namespace Mbon

/-! # The concurrent engine wrapper (src/concurrent.rs)

An actor owns the engine and serves typed requests from an unbounded FIFO
channel; each request carries a reply channel.  The model keeps the arrival
order as a list (all clients' requests merged in channel order, exactly what
the actor observes), and abstracts the engine behind `EngineOps`: a state
type with one transition per request kind, mirroring the `MbonParserRead`
surface (src/engine.rs lines 39-56).  Seek locations are `SeekFrom::Start`
offsets.  Channel-closure semantics follow the channel contract the source
relies on (`std::sync::mpsc`/`async_channel`): sending fails exactly when
the receiving side is gone, and `send_request` maps both failure directions
to an io `ConnectionReset` error (src/concurrent.rs lines 80-92). -/

/-- `RequestE` (src/concurrent.rs lines 20-43). -/
inductive RequestE where
  | ParseMark (loc : ℕ)
  | ParseItem (loc : ℕ)
  | ParseData (mark : Mark) (loc : ℕ)
  | ParseItemN (loc : ℕ) (count : Option ℕ) (bytes : ℕ) (parse_data : Bool)
  | ParseDataN (mark : Mark) (loc : ℕ) (n : ℕ)
  | Close
deriving DecidableEq, Repr

/-- `Response` (src/concurrent.rs lines 50-57). -/
inductive Response where
  | ParseMark (r : MbonResult (Mark × ℕ))
  | ParseItem (r : MbonResult PartialItem)
  | ParseData (r : MbonResult (Data × ℕ))
  | ParseDataN (r : MbonResult (List Data))
  | ParseItemN (r : MbonResult (List PartialItem))
  | Stopped

/-- The engine behind the actor, abstracted: a state with one transition
per `MbonParserRead` method. -/
structure EngineOps (E : Type) where
  parse_mark : E → ℕ → MbonResult (Mark × ℕ) × E
  parse_item : E → ℕ → MbonResult PartialItem × E
  parse_data : E → Mark → ℕ → MbonResult (Data × ℕ) × E
  parse_item_n :
    E → ℕ → Option ℕ → ℕ → Bool → MbonResult (List PartialItem) × E
  parse_data_n : E → Mark → ℕ → ℕ → MbonResult (List Data) × E

/-- `ConcurrentEngineWrapper::on_action` (src/concurrent.rs lines 198-230):
dispatch one request to the engine and reply; the returned flag is `true`
exactly for `Close`, which replies `Stopped` and makes the loop return. -/
def on_action {E : Type} (ops : EngineOps E) (e : E) (req : RequestE) :
    Response × E × Bool :=
  match req with
  | .ParseMark loc =>
      let r := ops.parse_mark e loc
      (.ParseMark r.1, r.2, false)
  | .ParseItem loc =>
      let r := ops.parse_item e loc
      (.ParseItem r.1, r.2, false)
  | .ParseData mark loc =>
      let r := ops.parse_data e mark loc
      (.ParseData r.1, r.2, false)
  | .ParseItemN loc count bytes pd =>
      let r := ops.parse_item_n e loc count bytes pd
      (.ParseItemN r.1, r.2, false)
  | .ParseDataN mark loc n =>
      let r := ops.parse_data_n e mark loc n
      (.ParseDataN r.1, r.2, false)
  | .Close => (.Stopped, e, true)

/-- `ConcurrentEngineWrapper::program_loop` (src/concurrent.rs lines
187-196) over the queued requests: serve one request at a time, stop after
the one whose `on_action` returns `true`. -/
def program_loop {E : Type} (ops : EngineOps E) :
    E → List RequestE → List Response × E
  | e, [] => ([], e)
  | e, req :: rest =>
    let r := on_action ops e req
    if r.2.2 then ([r.1], r.2.1)
    else
      let rr := program_loop ops r.2.1 rest
      (r.1 :: rr.1, rr.2)

/-- What one `send_request` call observes (src/concurrent.rs lines 80-92):
either the actor's reply, or an io `ConnectionReset` error because the
request channel's receiving side (or the reply channel's sending side) is
gone. -/
inductive Outcome where
  | reply (r : Response)
  | connectionReset

/-- The outcome of every queued request: the actor serves requests in
arrival order until one stops the loop; once the loop has returned the
receiver is dropped, so each later `send_request` fails with
`ConnectionReset`. -/
def client_outcomes {E : Type} (ops : EngineOps E) :
    E → List RequestE → List Outcome
  | _, [] => []
  | e, req :: rest =>
    let r := on_action ops e req
    if r.2.2 then
      .reply r.1 :: rest.map (fun _ => .connectionReset)
    else .reply r.1 :: client_outcomes ops r.2.1 rest

/-- Reference run with no close handling: every request dispatched. -/
def runRequests {E : Type} (ops : EngineOps E) :
    E → List RequestE → List Response × E
  | e, [] => ([], e)
  | e, req :: rest =>
    let r := on_action ops e req
    let rr := runRequests ops r.2.1 rest
    (r.1 :: rr.1, rr.2)

theorem on_action_stop {E : Type} (ops : EngineOps E) (e : E)
    (req : RequestE) : (on_action ops e req).2.2 = true ↔ req = .Close := by
  cases req <;> simp [on_action]

/-- C8: `close_engine()` makes the actor reply `Stopped` and terminate its
loop, and every request sent after the actor has stopped fails with a
`ConnectionReset` error: with `pre` the requests served before the first
`Close`, every `pre`-request gets its engine reply, the `Close` request
gets `Stopped`, and every later request gets `ConnectionReset`. -/
theorem C8_close_stops_and_later_requests_reset {E : Type}
    (ops : EngineOps E) (e : E) (pre post : List RequestE)
    (h : RequestE.Close ∉ pre) :
    client_outcomes ops e (pre ++ RequestE.Close :: post)
      = ((runRequests ops e pre).1.map Outcome.reply) ++
          Outcome.reply Response.Stopped ::
            post.map (fun _ => Outcome.connectionReset) := by
  induction pre generalizing e with
  | nil => simp [client_outcomes, runRequests, on_action]
  | cons r rest ih =>
      have hr : r ≠ RequestE.Close := fun he => h (he ▸ List.mem_cons_self r rest)
      have hstop : (on_action ops e r).2.2 = false := by
        cases hh : (on_action ops e r).2.2
        · rfl
        · exact absurd ((on_action_stop ops e r).mp hh) hr
      rw [List.cons_append, client_outcomes, runRequests]
      simp only [hstop, Bool.false_eq_true, if_false]
      rw [ih _ (fun hm => h (List.mem_cons_of_mem r hm))]
      simp

/-- A trivial engine abstraction over the unit state: every request fails
with `InternalError`. -/
def c8ops : EngineOps Unit :=
  { parse_mark := fun e _ => (.error .InternalError, e)
    parse_item := fun e _ => (.error .InternalError, e)
    parse_data := fun e _ _ => (.error .InternalError, e)
    parse_item_n := fun e _ _ _ _ => (.error .InternalError, e)
    parse_data_n := fun e _ _ _ => (.error .InternalError, e) }

/-- Witness for `C8_close_stops_and_later_requests_reset`: one request,
then `Close`, then one more — the last gets `ConnectionReset`. -/
theorem C8_close_stops_and_later_requests_reset_witness :
    client_outcomes c8ops ()
        [RequestE.ParseMark 0, RequestE.Close, RequestE.ParseMark 1]
      = [Outcome.reply (Response.ParseMark (.error .InternalError)),
         Outcome.reply Response.Stopped, Outcome.connectionReset] := by
  have h := C8_close_stops_and_later_requests_reset c8ops ()
    [RequestE.ParseMark 0] [RequestE.ParseMark 1] (by simp)
  simpa [runRequests, on_action, c8ops] using h

end Mbon

namespace Mbon

/-! ## Shallow `Data::parse` and the remaining engine operations
(src/data.rs, src/engine.rs)

The shallow data parser reads scalars, strings and enum variants, and turns
composites into shells; it never materialises children.  The models are
positional over the engine state `(file, cursor)`:  every reader returns
the new stream position alongside the result, also on errors, because a
partial `read_exact` consumes the available bytes before failing. -/

/-- Little-endian value of a byte list. -/
def leNat (bs : List ℕ) : ℕ :=
  bs.foldr (fun b acc => b + acc * 256) 0

/-- A `width`-byte little-endian read at `pos` (`read_u8`, `read_u16_le`,
…): on end-of-file the available bytes are consumed before the error
(`read_exact` semantics over the file buffer). -/
def readScalarLE (file : Bytes) (pos w : ℕ) : (Except MbonError ℕ) × ℕ :=
  let avail := file.length - pos
  if avail < w then (.error .OutOfData, pos + avail)
  else (.ok (leNat (List.take w (List.drop pos file))), pos + w)

/-- UTF-8 decoding of a byte list, as `String::from_utf8` performs it:
`none` on forbidden ranges, bad continuation bytes, overlong encodings,
surrogates and code points past `U+10FFFF`. -/
def utf8DecodeAux : List ℕ → Option (List Char)
  | [] => some []
  | b :: rest =>
    if b < 0x80 then (utf8DecodeAux rest).map (fun cs => Char.ofNat b :: cs)
    else if b < 0xc2 then none
    else if b ≤ 0xdf then
      match rest with
      | c1 :: r =>
        if 0x80 ≤ c1 && c1 ≤ 0xbf then
          (utf8DecodeAux r).map (fun cs =>
            Char.ofNat (((b &&& 0x1f) <<< 6) ||| (c1 &&& 0x3f)) :: cs)
        else none
      | _ => none
    else if b ≤ 0xef then
      match rest with
      | c1 :: c2 :: r =>
        if ((if b == 0xe0 then 0xa0 else 0x80) ≤ c1 &&
              c1 ≤ (if b == 0xed then 0x9f else 0xbf)) &&
            (0x80 ≤ c2 && c2 ≤ 0xbf) then
          (utf8DecodeAux r).map (fun cs =>
            Char.ofNat ((((b &&& 0xf) <<< 12) ||| ((c1 &&& 0x3f) <<< 6)) |||
              (c2 &&& 0x3f)) :: cs)
        else none
      | _ => none
    else if b ≤ 0xf4 then
      match rest with
      | c1 :: c2 :: c3 :: r =>
        if (((if b == 0xf0 then 0x90 else 0x80) ≤ c1 &&
              c1 ≤ (if b == 0xf4 then 0x8f else 0xbf)) &&
            (0x80 ≤ c2 && c2 ≤ 0xbf)) && (0x80 ≤ c3 && c3 ≤ 0xbf) then
          (utf8DecodeAux r).map (fun cs =>
            Char.ofNat (((((b &&& 0x7) <<< 18) ||| ((c1 &&& 0x3f) <<< 12)) |||
              ((c2 &&& 0x3f) <<< 6)) ||| (c3 &&& 0x3f)) :: cs)
        else none
      | _ => none
    else none
termination_by l => l.length

def utf8Decode (bs : List ℕ) : Option String :=
  (utf8DecodeAux bs).map (fun cs => String.mk cs)

/-- `Str::parse` (src/data.rs lines 89-101): `read_exact` of `l` bytes, then
`String::from_utf8` (`InvalidData` on invalid UTF-8). -/
def Str.parse (file : Bytes) (pos l : ℕ) : (Except MbonError Str) × ℕ :=
  let avail := file.length - pos
  if avail < l then (.error .OutOfData, pos + avail)
  else
    match utf8Decode (List.take l (List.drop pos file)) with
    | some str => (.ok { val := str }, pos + l)
    | none => (.error .InvalidData, pos + l)

/-- The loop of the shallow `List::parse` (src/data.rs lines 139-163), in
the positional form that also returns the final stream position (on an
error, the position where parsing stopped).  Same loop as `DList.parseLoop`
above, with the position kept; `DList.parseLoopE_fst` proves the results
agree. -/
def DList.parseLoopE (file : Bytes) (stop : ℕ) :
    ℕ → ℕ → List PartialItem → (Except MbonError (List PartialItem)) × ℕ
  | 0, pos, _ => (.error .InternalError, pos)
  | fuel + 1, pos, items =>
    match Mark.parse (List.drop pos file) with
    | (.error e, r) => (.error e, pos + r)
    | (.ok m, r) =>
      let items := items ++ [PartialItem.mk m none pos]
      let pos := pos + r
      if pos == stop then (.ok items, pos)
      else if stop < pos then (.error .InvalidData, pos)
      else DList.parseLoopE file stop fuel pos items

/-- `List::parse` with the final stream position. -/
def DList.parseE (file : Bytes) (start l : ℕ) :
    (Except MbonError DList) × ℕ :=
  let r := DList.parseLoopE file (start + l) (l + 1) start []
  (r.1.map (fun items => DList.mk items start (start + l)), r.2)

/-- The positional list-parse loop computes the same result as the one used
for claim C5. -/
theorem DList.parseLoopE_fst (file : Bytes) (stop : ℕ) :
    ∀ (fuel pos : ℕ) (items : List PartialItem),
      (DList.parseLoopE file stop fuel pos items).1
        = DList.parseLoop file stop fuel pos items := by
  intro fuel
  induction fuel with
  | zero => intro pos items; rfl
  | succ n ih =>
      intro pos items
      rw [DList.parseLoopE, DList.parseLoop]
      rcases Mark.parse (List.drop pos file) with ⟨res, r⟩
      cases res with
      | error e => rfl
      | ok m =>
          simp only
          split
          · rfl
          · split
            · rfl
            · exact ih _ _

theorem DList.parseE_fst (file : Bytes) (start l : ℕ) :
    (DList.parseE file start l).1 = DList.parse file start l := by
  rw [DList.parseE, DList.parse, DList.parseLoopE_fst]

/-- Shallow `Data::parse` (src/data.rs lines 697-749) at stream position
`pos`: scalars, strings and enum variants are read; `Array`/`Struct` become
shells at the current position without any I/O; `List`/`Map` walk their
item marks; `Padding`/`Pointer`/`Rc`/`Heap` are `todo!()` panics (`none`).
Returns the new stream position together with the result. -/
def Data.parse (file : Bytes) : Mark → ℕ →
    Option ((Except MbonError Data) × ℕ)
  | .Null, pos => some (.ok .Null, pos)
  | .Unsigned b, pos =>
    match b with
    | 1 => some ((readScalarLE file pos 1).1.map Data.U8,
                 (readScalarLE file pos 1).2)
    | 2 => some ((readScalarLE file pos 2).1.map Data.U16,
                 (readScalarLE file pos 2).2)
    | 4 => some ((readScalarLE file pos 4).1.map Data.U32,
                 (readScalarLE file pos 4).2)
    | 8 => some ((readScalarLE file pos 8).1.map Data.U64,
                 (readScalarLE file pos 8).2)
    | _ => some (.error .InvalidMark, pos)
  | .Signed b, pos =>
    match b with
    | 1 => some ((readScalarLE file pos 1).1.map
                   (fun u => Data.I8 (Legacy.to_signed 1 u)),
                 (readScalarLE file pos 1).2)
    | 2 => some ((readScalarLE file pos 2).1.map
                   (fun u => Data.I16 (Legacy.to_signed 2 u)),
                 (readScalarLE file pos 2).2)
    | 4 => some ((readScalarLE file pos 4).1.map
                   (fun u => Data.I32 (Legacy.to_signed 4 u)),
                 (readScalarLE file pos 4).2)
    | 8 => some ((readScalarLE file pos 8).1.map
                   (fun u => Data.I64 (Legacy.to_signed 8 u)),
                 (readScalarLE file pos 8).2)
    | _ => some (.error .InvalidMark, pos)
  | .Float b, pos =>
    match b with
    | 4 => some ((readScalarLE file pos 4).1.map Data.F32,
                 (readScalarLE file pos 4).2)
    | 8 => some ((readScalarLE file pos 8).1.map Data.F64,
                 (readScalarLE file pos 8).2)
    | _ => some (.error .InvalidMark, pos)
  | .Char b, pos =>
    match b with
    | 1 => some ((readScalarLE file pos 1).1.map Data.C8,
                 (readScalarLE file pos 1).2)
    | 2 => some ((readScalarLE file pos 2).1.map Data.C16,
                 (readScalarLE file pos 2).2)
    | 4 => some ((readScalarLE file pos 4).1.map Data.C32,
                 (readScalarLE file pos 4).2)
    | _ => some (.error .InvalidMark, pos)
  | .String l, pos =>
    some ((Str.parse file pos l).1.map Data.String, (Str.parse file pos l).2)
  | .Array v n, pos =>
    some (.ok (Data.Array (DArray.mk (List.replicate n none) v pos)), pos)
  | .List l, pos =>
    some ((DList.parseE file pos l).1.map Data.List,
          (DList.parseE file pos l).2)
  | .Struct k v n, pos =>
    some (.ok (Data.Struct
      (DStruct.mk (List.replicate n (none, none)) k v pos)), pos)
  | .Map l, pos =>
    some ((DList.parseE file pos l).1.map
            (fun dl => match dl with
              | DList.mk items start stop =>
                  Data.Map (DMap.mk items start stop)),
          (DList.parseE file pos l).2)
  | .Enum b m, pos =>
    match b with
    | 1 => some ((readScalarLE file pos 1).1.map
                   (fun v => Data.Enum8 (DEnum.mk v m none pos)),
                 (readScalarLE file pos 1).2)
    | 2 => some ((readScalarLE file pos 2).1.map
                   (fun v => Data.Enum16 (DEnum.mk v m none pos)),
                 (readScalarLE file pos 2).2)
    | 4 => some ((readScalarLE file pos 4).1.map
                   (fun v => Data.Enum32 (DEnum.mk v m none pos)),
                 (readScalarLE file pos 4).2)
    | _ => some (.error .InvalidMark, pos)
  | .Space, pos => some (.ok .Space, pos)
  | .Padding _, _ => none
  | .Pointer _, _ => none
  | .Rc _ _, _ => none
  | .Heap _, _ => none

/-- `Engine::parse_data_sync` (src/engine.rs lines 219-225) at
`SeekFrom::Start loc`: seek, shallow `Data::parse`, return the data with
the position it started at.  `none` is the `todo!()` panic. -/
def Engine.parse_data_sync (e : Engine) (mark : Mark) (loc : ℕ) :
    Option ((Except MbonError (Data × ℕ)) × Engine) :=
  match Data.parse e.file mark loc with
  | none => none
  | some (.ok d, pos) => some (.ok (d, loc), { e with cursor := pos })
  | some (.error err, pos) => some (.error err, { e with cursor := pos })

/-- `Engine::parse_item_sync` (src/engine.rs lines 173-181) at
`SeekFrom::Start loc`: seek, parse the mark, then
`PartialItem::parse_data` (src/data.rs lines 809-815), which seeks to
`location + mark_len` and shallow-parses the data.  `none` covers both the
`Size::len` divergence inside `mark_len` and the `todo!()` panics. -/
def Engine.parse_item_sync (e : Engine) (loc : ℕ) :
    Option ((Except MbonError PartialItem) × Engine) :=
  match Mark.parse (List.drop loc e.file) with
  | (.error err, r) => some (.error err, { e with cursor := loc + r })
  | (.ok m, _) =>
    match m.mark_len with
    | none => none
    | some ml =>
      match Data.parse e.file m (loc + ml) with
      | none => none
      | some (.ok d, pos) =>
          some (.ok (PartialItem.mk m (some d) loc), { e with cursor := pos })
      | some (.error err, pos) =>
          some (.error err, { e with cursor := pos })

/-- The `for i in 0..n` loop of `Engine::parse_data_n_sync` (src/engine.rs
lines 241-245): seek to `start + len * i`, shallow-parse, collect. -/
def Engine.parseDataNLoop (file : Bytes) (mark : Mark) (start len : ℕ) :
    ℕ → ℕ → List Data → ℕ → Option ((Except MbonError (List Data)) × ℕ)
  | 0, _, acc, cur => some (.ok acc, cur)
  | rem + 1, i, acc, _ =>
    match Data.parse file mark (start + len * i) with
    | none => none
    | some (.ok d, pos) =>
        Engine.parseDataNLoop file mark start len rem (i + 1) (acc ++ [d]) pos
    | some (.error err, pos) => some (.error err, pos)

/-- `Engine::parse_data_n_sync` (src/engine.rs lines 227-248) at
`SeekFrom::Start loc`. -/
def Engine.parse_data_n_sync (e : Engine) (mark : Mark) (loc n : ℕ) :
    Option ((Except MbonError (List Data)) × Engine) :=
  match Engine.parseDataNLoop e.file mark loc mark.data_len n 0 [] loc with
  | none => none
  | some (res, cur) => some (res, { e with cursor := cur })

/-- The loop of `Engine::parse_item_n_sync` with `parse_data = false`, in
the positional form that also returns the final logical cursor (`Mark.parse`
advances it; each iteration then seeks to `pos + total_len`).  Fuel
exhaustion is `none`, as in the claim-C3 model, and
`Engine.parseItemNLoopE_fst` proves the two loops agree at every fuel. -/
def Engine.parseItemNLoopE (file : Bytes) (count : Option ℕ) (bytes : ℕ) :
    ℕ → ℕ → ℕ → List PartialItem →
      Option ((Except MbonError (List PartialItem)) × ℕ)
  | 0, _, _, _ => none
  | fuel + 1, pos, read, items =>
    if (match count with
        | some c => decide (items.length < c)
        | none => true) && decide (read < bytes) then
      match Mark.parse (List.drop pos file) with
      | (.error e, r) => some (.error e, pos + r)
      | (.ok m, _) =>
        match m.total_len with
        | none => none
        | some len =>
          Engine.parseItemNLoopE file count bytes fuel (pos + len)
            (read + len) (items ++ [PartialItem.mk m none pos])
    else if bytes < read then some (.error .InvalidMark, pos)
    else some (.ok items, pos)

/-- `Engine::parse_item_n_sync` (src/engine.rs lines 184-217) with
`parse_data = false`, with the engine state. -/
def Engine.parse_item_n_syncE (e : Engine) (loc : ℕ) (count : Option ℕ)
    (bytes : ℕ) : Option ((Except MbonError (List PartialItem)) × Engine) :=
  match Engine.parseItemNLoopE e.file count bytes (bytes + 1) loc 0 [] with
  | none => none
  | some (res, cur) => some (res, { e with cursor := cur })

/-- The positional `parse_item_n` loop computes the same result as the
claim-C3 model at every fuel, so `Engine.parse_item_n_syncE` returns
exactly the items the C3 equivalence theorem characterises. -/
theorem Engine.parseItemNLoopE_fst (file : Bytes) (count : Option ℕ)
    (bytes : ℕ) :
    ∀ (fuel pos read : ℕ) (items : List PartialItem),
      (Engine.parseItemNLoopE file count bytes fuel pos read items).map
          Prod.fst
        = Engine.parse_item_n_loop file count bytes fuel pos read items := by
  intro fuel
  induction fuel with
  | zero => intro pos read items; rfl
  | succ n ih =>
      intro pos read items
      simp only [Engine.parseItemNLoopE, Engine.parse_item_n_loop]
      split
      · rcases Mark.parse (List.drop pos file) with ⟨res, r⟩
        cases res with
        | error e => rfl
        | ok m =>
            simp only
            rcases htl : m.total_len with _ | len
            · rfl
            · simp only
              exact ih _ _ _
      · split <;> rfl

/-- `Engine::verify_signature_sync` (src/engine.rs lines 150-161): rewind,
read exactly 8 bytes, compare with the fixed signature. -/
def Engine.verify_signature_sync (e : Engine) :
    (Except MbonError Bool) × Engine :=
  if e.file.length < 8 then
    (.error .OutOfData, { e with cursor := e.file.length })
  else
    (.ok (decide (List.take 8 e.file
        = [0xEE, 0x6D, 0x62, 0x6F, 0x6E, 0x0D, 0x0A, 0x00])),
     { e with cursor := 8 })

/-- C9 as amended: a failed engine operation leaves every part of the
engine state except the logical cursor unchanged (the cursor may end
wherever parsing stopped), and since every operation first seeks to its
argument location, the prior cursor value influences neither the result nor
the final state of any operation.  Stated for the whole synchronous engine
surface: `parse_mark_sync`, `parse_data_sync`, `parse_item_sync`,
`parse_data_n_sync`, `parse_item_n_sync` and `verify_signature_sync` —
for each, the full outcome is the same from any two initial cursors `c`,
`c'`, and the file contents are untouched. -/
theorem C9_failed_op_leaves_state_consistent (file : Bytes)
    (c c' loc n bytes : ℕ) (mark : Mark) (count : Option ℕ) :
    (Engine.parse_mark_sync ⟨file, c⟩ loc
        = Engine.parse_mark_sync ⟨file, c'⟩ loc ∧
      ((Engine.parse_mark_sync ⟨file, c⟩ loc).2).file = file) ∧
    (Engine.parse_data_sync ⟨file, c⟩ mark loc
        = Engine.parse_data_sync ⟨file, c'⟩ mark loc ∧
      (Engine.parse_data_sync ⟨file, c⟩ mark loc).map (fun r => r.2.file)
        = (Engine.parse_data_sync ⟨file, c⟩ mark loc).map (fun _ => file)) ∧
    (Engine.parse_item_sync ⟨file, c⟩ loc
        = Engine.parse_item_sync ⟨file, c'⟩ loc ∧
      (Engine.parse_item_sync ⟨file, c⟩ loc).map (fun r => r.2.file)
        = (Engine.parse_item_sync ⟨file, c⟩ loc).map (fun _ => file)) ∧
    (Engine.parse_data_n_sync ⟨file, c⟩ mark loc n
        = Engine.parse_data_n_sync ⟨file, c'⟩ mark loc n ∧
      (Engine.parse_data_n_sync ⟨file, c⟩ mark loc n).map
          (fun r => r.2.file)
        = (Engine.parse_data_n_sync ⟨file, c⟩ mark loc n).map
            (fun _ => file)) ∧
    (Engine.parse_item_n_syncE ⟨file, c⟩ loc count bytes
        = Engine.parse_item_n_syncE ⟨file, c'⟩ loc count bytes ∧
      (Engine.parse_item_n_syncE ⟨file, c⟩ loc count bytes).map
          (fun r => r.2.file)
        = (Engine.parse_item_n_syncE ⟨file, c⟩ loc count bytes).map
            (fun _ => file)) ∧
    (Engine.verify_signature_sync ⟨file, c⟩
        = Engine.verify_signature_sync ⟨file, c'⟩ ∧
      ((Engine.verify_signature_sync ⟨file, c⟩).2).file = file) := by
  refine ⟨⟨?_, ?_⟩, ⟨?_, ?_⟩, ⟨?_, ?_⟩, ⟨?_, ?_⟩, ⟨?_, ?_⟩, ⟨?_, ?_⟩⟩
  · rcases h : Mark.parse (List.drop loc file) with ⟨res, r⟩
    cases res <;> simp [Engine.parse_mark_sync, h]
  · rcases h : Mark.parse (List.drop loc file) with ⟨res, r⟩
    cases res <;> simp [Engine.parse_mark_sync, h]
  · rcases h : Data.parse file mark loc with _ | ⟨res, pos⟩
    · simp [Engine.parse_data_sync, h]
    · cases res <;> simp [Engine.parse_data_sync, h]
  · rcases h : Data.parse file mark loc with _ | ⟨res, pos⟩
    · simp [Engine.parse_data_sync, h]
    · cases res <;> simp [Engine.parse_data_sync, h]
  · rcases h : Mark.parse (List.drop loc file) with ⟨res, r⟩
    cases res with
    | error err => simp [Engine.parse_item_sync, h]
    | ok m =>
        rcases hml : m.mark_len with _ | ml
        · simp [Engine.parse_item_sync, h, hml]
        · rcases hd : Data.parse file m (loc + ml) with _ | ⟨res2, pos⟩
          · simp [Engine.parse_item_sync, h, hml, hd]
          · cases res2 <;> simp [Engine.parse_item_sync, h, hml, hd]
  · rcases h : Mark.parse (List.drop loc file) with ⟨res, r⟩
    cases res with
    | error err => simp [Engine.parse_item_sync, h]
    | ok m =>
        rcases hml : m.mark_len with _ | ml
        · simp [Engine.parse_item_sync, h, hml]
        · rcases hd : Data.parse file m (loc + ml) with _ | ⟨res2, pos⟩
          · simp [Engine.parse_item_sync, h, hml, hd]
          · cases res2 <;> simp [Engine.parse_item_sync, h, hml, hd]
  · rcases h : Engine.parseDataNLoop file mark loc mark.data_len n 0 [] loc
      with _ | ⟨res, cur⟩
    · simp [Engine.parse_data_n_sync, h]
    · simp [Engine.parse_data_n_sync, h]
  · rcases h : Engine.parseDataNLoop file mark loc mark.data_len n 0 [] loc
      with _ | ⟨res, cur⟩
    · simp [Engine.parse_data_n_sync, h]
    · simp [Engine.parse_data_n_sync, h]
  · rcases h : Engine.parseItemNLoopE file count bytes (bytes + 1) loc 0 []
      with _ | ⟨res, cur⟩
    · simp [Engine.parse_item_n_syncE, h]
    · simp [Engine.parse_item_n_syncE, h]
  · rcases h : Engine.parseItemNLoopE file count bytes (bytes + 1) loc 0 []
      with _ | ⟨res, cur⟩
    · simp [Engine.parse_item_n_syncE, h]
    · simp [Engine.parse_item_n_syncE, h]
  · by_cases h : file.length < 8 <;> simp [Engine.verify_signature_sync, h]
  · by_cases h : file.length < 8 <;> simp [Engine.verify_signature_sync, h]

end Mbon
